import Mathlib

/-!
Verification development for the loopy scheduling engine
(`loopy/schedule.py`): the schedule-item data model, the backtracking
schedule search `generate_loop_schedules_internal`, and the barrier
insertion pass `insert_barriers`, embedded as executable Lean functions.

Conventions of the embedding:
* instruction ids, iname names and variable names are opaque strings in
  the source; they are modelled as `Nat`;
* Python sets are modelled as lists with set-style membership operations
  (`subsetB`, `setEqB`, `diffL`); where the source iterates over a set in
  unspecified order, the embedding fixes a deterministic order (the spec
  leaves the relative order unspecified but deterministic);
* the generator-based search is modelled as a function returning the list
  of all yielded schedules, with a fuel parameter for termination; running
  out of fuel yields nothing, so every member of the returned list is a
  schedule the source search yields;
* Python `assert` failures inside the barrier pass are modelled as
  `Except.error ()`.
-/

/-- The four schedule item kinds of `loopy/schedule.py`.  A `Barrier`
comment is modelled as the pair (is-pre-barrier flag, variable name)
standing for the source's `"pre-barrier: %s"` / `"dependency: %s"`
strings, or `none` when the source would store `None`. -/
inductive SchedItem where
  | EnterLoop (iname : Nat)
  | LeaveLoop (iname : Nat)
  | RunInstruction (insn_id : Nat)
  | Barrier (comment : Option (Bool × Nat))
deriving DecidableEq

/-- An instruction as seen through the kernel query facade: its id, its
dependency ids (`insn_deps`), its required inames (`kernel.insn_inames`),
its assignee variable (`get_assignee_var_name`), its read variables
(`get_read_var_names`) and its boost-exemption set (`boostable_into`). -/
structure Instruction where
  id : Nat
  insn_deps : List Nat
  insn_inames : List Nat
  assignee : Nat
  read_vars : List Nat
  boostable_into : List Nat
deriving DecidableEq

instance : Inhabited Instruction := ⟨⟨0, [], [], 0, [], []⟩⟩

/-- The kernel query facade: the read-only queries the scheduler makes.
`local_vars` models both `kernel.local_var_names()` and the
`is_local` classification of temporary variables (the spec's single
shared-storage classification).  `loop_nest_map` gives, per iname, the
inames that must already be active or parallel before it is entered. -/
structure Kernel where
  instructions : List Instruction
  local_vars : List Nat
  parallel_inames : List Nat
  breakable_inames : List Nat
  lowest_priority_inames : List Nat
  loop_nest_map : List (Nat × List Nat)
deriving DecidableEq

/-- `kernel.id_to_insn[i]`: the kernel's instruction with the given id. -/
def idToInsn (k : Kernel) (i : Nat) : Instruction :=
  (k.instructions.find? (fun insn => insn.id == i)).getD default

/-- Set-style subset test on lists. -/
def subsetB (a b : List Nat) : Bool :=
  a.all (fun x => b.contains x)

/-- Set-style equality test on lists (Python `==` on sets). -/
def setEqB (a b : List Nat) : Bool :=
  subsetB a b && subsetB b a

/-- Set-style difference on lists (Python `-` on sets). -/
def diffL (a b : List Nat) : List Nat :=
  a.filter (fun x => !(b.contains x))

/-- The ids of the `RunInstruction` items of a schedule, in order
(`scheduled_insn_ids` as an ordered list). -/
def runIds (schedule : List SchedItem) : List Nat :=
  schedule.filterMap (fun item =>
    match item with
    | SchedItem.RunInstruction i => some i
    | _ => none)

/-- One step of the active-loop stack maintained over a schedule:
`EnterLoop` pushes, `LeaveLoop` pops.  The innermost loop is the head. -/
def activeStep (st : List Nat) (item : SchedItem) : List Nat :=
  match item with
  | SchedItem.EnterLoop i => i :: st
  | SchedItem.LeaveLoop _ => st.tail
  | _ => st

/-- The stack of currently active (entered, not yet left) inames after a
schedule, innermost first (`active_inames`, with the top at the head). -/
def activeStack (schedule : List SchedItem) : List Nat :=
  schedule.foldl activeStep []

/-- `all_insn_ids`. -/
def allInsnIds (k : Kernel) : List Nat :=
  k.instructions.map (fun insn => insn.id)

/-- `unscheduled_insn_ids`: kernel instruction ids with no
`RunInstruction` in the schedule yet. -/
def unscheduledIds (k : Kernel) (schedule : List SchedItem) : List Nat :=
  (allInsnIds k).filter (fun i => !((runIds schedule).contains i))

/-- Dependencies of an instruction all scheduled already. -/
def depsMet (k : Kernel) (schedule : List SchedItem) (iid : Nat) : Bool :=
  subsetB (idToInsn k iid).insn_deps (runIds schedule)

/-- `want`: the instruction's required inames minus parallel inames. -/
def wantOf (k : Kernel) (insn : Instruction) : List Nat :=
  diffL insn.insn_inames k.parallel_inames

/-- `have`: active inames minus parallel inames, additionally minus the
instruction's boost-exemption set when boosting is enabled
(`allow_boost` truthy, i.e. `some true`). -/
def haveOf (k : Kernel) (active : List Nat) (allow_boost : Option Bool)
    (insn : Instruction) : List Nat :=
  if allow_boost = some true then
    diffL (diffL active k.parallel_inames) insn.boostable_into
  else diffL active k.parallel_inames

/-- Whether an unscheduled instruction can be scheduled right now:
dependencies met and `want == have`. -/
def isRunnable (k : Kernel) (schedule : List SchedItem)
    (allow_boost : Option Bool) (iid : Nat) : Bool :=
  depsMet k schedule iid &&
    setEqB (wantOf k (idToInsn k iid))
      (haveOf k (activeStack schedule) allow_boost (idToInsn k iid))

/-- The first immediately runnable unscheduled instruction, if any (the
source commits greedily to the first one found; set-iteration order is
determinized to kernel instruction order). -/
def findRunnable (k : Kernel) (schedule : List SchedItem)
    (allow_boost : Option Bool) : Option Nat :=
  (unscheduledIds k schedule).find? (isRunnable k schedule allow_boost)

/-- `reachable_insn_ids`: unscheduled instructions with dependencies met
whose `have` is a subset of `want` (schedulable if more loops were
entered).  Only consulted when no instruction is immediately runnable. -/
def reachableIds (k : Kernel) (schedule : List SchedItem)
    (allow_boost : Option Bool) : List Nat :=
  (unscheduledIds k schedule).filter (fun iid =>
    depsMet k schedule iid &&
      subsetB (haveOf k (activeStack schedule) allow_boost (idToInsn k iid))
        (wantOf k (idToInsn k iid)))

/-- The backward scan deciding whether an instruction has been run since
the innermost active loop was entered (`seen_an_insn` / `ignore_count`). -/
def ranSinceEnterAux : List SchedItem → Bool → Nat → Bool
  | [], _, _ => false
  | item :: rest, seen, ignore =>
    match item with
    | SchedItem.RunInstruction _ => ranSinceEnterAux rest true ignore
    | SchedItem.LeaveLoop _ => ranSinceEnterAux rest seen (ignore + 1)
    | SchedItem.EnterLoop _ =>
      if ignore = 0 then seen else ranSinceEnterAux rest seen (ignore - 1)
    | SchedItem.Barrier _ => ranSinceEnterAux rest seen ignore

/-- At least one instruction has been run since the innermost active loop
was entered. -/
def ranSinceEnter (schedule : List SchedItem) : Bool :=
  ranSinceEnterAux schedule.reverse false 0

/-- The innermost active loop, when it may be left now: it must be
breakable or no longer needed by any unscheduled instruction, and at
least one instruction must have been run since it was entered. -/
def canLeaveLoop (k : Kernel) (schedule : List SchedItem) : Option Nat :=
  match (activeStack schedule).head? with
  | none => none
  | some lel =>
    if (k.breakable_inames.contains lel ||
          (unscheduledIds k schedule).all
            (fun iid => !((idToInsn k iid).insn_inames.contains lel)))
        && ranSinceEnter schedule
    then some lel else none

/-- `needed_inames`: inames referenced by unscheduled instructions,
excluding parallel and already-active inames. -/
def neededInames (k : Kernel) (schedule : List SchedItem) : List Nat :=
  ((((unscheduledIds k schedule).map
      (fun iid => (idToInsn k iid).insn_inames)).flatten).dedup).filter
    (fun i => !(k.parallel_inames.contains i)
      && !((activeStack schedule).contains i))

/-- `kernel.loop_nest_map()[iname]`: the nesting parents of an iname
(modelled as a lookup defaulting to no parents). -/
def loopNestOf (k : Kernel) (iname : Nat) : List Nat :=
  ((k.loop_nest_map.find? (fun p => p.1 == iname)).map (fun p => p.2)).getD []

/-- `useful_loops`: needed inames whose nesting parents are satisfied and
whose entry brings the active set into alignment with some reachable
instruction. -/
def usefulLoops (k : Kernel) (schedule : List SchedItem)
    (allow_boost : Option Bool) : List Nat :=
  (neededInames k schedule).filter (fun iname =>
    subsetB (loopNestOf k iname) (activeStack schedule ++ k.parallel_inames)
      && (reachableIds k schedule allow_boost).any (fun iid =>
        subsetB (iname :: activeStack schedule)
          ((idToInsn k iid).insn_inames ++ (idToInsn k iid).boostable_into)))

/-- The priority tiers of the loop-entry step: singleton tiers per
user-prioritized useful iname (not lowest-priority), then the remaining
useful not-lowest-priority inames, then singleton tiers per
lowest-priority useful iname. -/
def buildTiers (loop_priority lowest useful : List Nat) : List (List Nat) :=
  let useful_and_desired := useful.filter (fun i => loop_priority.contains i)
  (if useful_and_desired.isEmpty then
    [useful.filter (fun i => !(lowest.contains i))]
  else
    ((loop_priority.filter
        (fun i => useful_and_desired.contains i && !(lowest.contains i))).map
      (fun i => [i]))
    ++ [useful.filter
        (fun i => !(loop_priority.contains i) && !(lowest.contains i))])
  ++ (lowest.filter (fun i => useful.contains i)).map (fun i => [i])

/-- The `allow_boost` value passed to recursive search calls
(`rec_allow_boost`): `None` stays `None`, anything else becomes
`False`. -/
def recBoost (allow_boost : Option Bool) : Option Bool :=
  if allow_boost = none then none else some false

/-- Steps 4 and 5 of the search: yield the schedule when it is complete,
otherwise retry with boosting when running strictly (`allow_boost`
exactly `False`), otherwise record a dead end (no yields). -/
def genStep45 (k : Kernel)
    (recur : List SchedItem → Option Bool → List (List SchedItem))
    (schedule : List SchedItem) (allow_boost : Option Bool) :
    List (List SchedItem) :=
  if (activeStack schedule).isEmpty
      && (unscheduledIds k schedule).isEmpty then
    [schedule]
  else if allow_boost = some false then
    recur schedule (some true)
  else []

/-- Step 3 of the search: try entering useful loops tier by tier; the
first tier with any viable downstream schedule wins.  Falls through to
steps 4/5 when no needed iname exists or no tier yields anything. -/
def genStep3 (k : Kernel) (loop_priority : List Nat)
    (recur : List SchedItem → Option Bool → List (List SchedItem))
    (schedule : List SchedItem) (allow_boost : Option Bool) :
    List (List SchedItem) :=
  if (neededInames k schedule).isEmpty then
    genStep45 k recur schedule allow_boost
  else
    match ((buildTiers loop_priority k.lowest_priority_inames
        (usefulLoops k schedule allow_boost)).map (fun tier =>
          (tier.map (fun iname =>
            recur (schedule ++ [SchedItem.EnterLoop iname])
              (recBoost allow_boost))).flatten)).find?
        (fun r => !r.isEmpty) with
    | some r => r
    | none => genStep45 k recur schedule allow_boost

/-- One expansion step of the schedule search: `recur` is the search
itself, applied to the extended partial schedules.  Mirrors the body of
`generate_loop_schedules_internal`: step 1 runs the first runnable
instruction, step 2 leaves the innermost leavable loop, then steps 3-5
(`genStep3`, `genStep45`). -/
def genBody (k : Kernel) (loop_priority : List Nat)
    (recur : List SchedItem → Option Bool → List (List SchedItem))
    (schedule : List SchedItem) (allow_boost : Option Bool) :
    List (List SchedItem) :=
  match findRunnable k schedule allow_boost with
  | some iid =>
    recur (schedule ++ [SchedItem.RunInstruction iid]) (recBoost allow_boost)
  | none =>
    match canLeaveLoop k schedule with
    | some lel =>
      recur (schedule ++ [SchedItem.LeaveLoop lel]) (recBoost allow_boost)
    | none => genStep3 k loop_priority recur schedule allow_boost

/-- The backtracking schedule search `generate_loop_schedules_internal`,
returning the list of all yielded complete schedules.  `allow_boost`
mirrors the source's tri-state argument: `none` for Python `None` (boost
disabled entirely), `some false` for `False` (strict, with a boost retry
at dead ends), `some true` for `True` (boosting enabled).  The `fuel`
argument bounds the recursion depth; exhausted fuel yields nothing. -/
def generate_loop_schedules_internal (k : Kernel) (loop_priority : List Nat) :
    Nat → List SchedItem → Option Bool → List (List SchedItem)
  | 0, _, _ => []
  | fuel + 1, schedule, allow_boost =>
    genBody k loop_priority
      (fun s ab => generate_loop_schedules_internal k loop_priority fuel s ab)
      schedule allow_boost

/-- A hazard record `(target, source, var_name)` returned by
`get_barrier_needing_dependency`. -/
structure BarrierDep where
  target : Instruction
  source : Instruction
  var : Nat
deriving DecidableEq

/-- `get_barrier_needing_dependency`: the shared-storage hazard between a
candidate dependent `target` and a candidate source `source`, if any.
Python `assert` failures are `Except.error ()`; Python `is` identity of
the two instruction objects is modelled as structural equality (the
source obtains both objects from the id-keyed `id_to_insn` map). -/
def get_barrier_needing_dependency (k : Kernel) (target source : Instruction)
    (unordered : Bool) : Except Unit (Option BarrierDep) :=
  let lv := k.local_vars
  let tgt_write := if lv.contains target.assignee then [target.assignee] else []
  let tgt_read := target.read_vars.filter (fun v => lv.contains v)
  let src_write := if lv.contains source.assignee then [source.assignee] else []
  let src_read := source.read_vars.filter (fun v => lv.contains v)
  let waw := tgt_write.filter (fun v => src_write.contains v)
  let raw := tgt_read.filter (fun v => src_write.contains v)
  let war := tgt_write.filter (fun v => src_read.contains v)
  match (raw ++ war).head? with
  | some v =>
    if unordered || target.insn_deps.contains source.id then
      Except.ok (some ⟨target, source, v⟩)
    else Except.error ()
  | none =>
    if source = target then Except.ok none
    else
      match waw.head? with
      | some v =>
        if target.insn_deps.contains source.id then
          Except.ok (some ⟨target, source, v⟩)
        else Except.error ()
      | none => Except.ok none

/-- `get_barrier_dependent_in_schedule`: scan a schedule for the first
`RunInstruction` with a hazard against `source`, stopping (with no
result) at the first `Barrier` item. -/
def get_barrier_dependent_in_schedule (k : Kernel) (source : Nat) :
    List SchedItem → Bool → Except Unit (Option BarrierDep)
  | [], _ => Except.ok none
  | SchedItem.RunInstruction tid :: rest, unordered =>
    match get_barrier_needing_dependency k (idToInsn k tid)
        (idToInsn k source) unordered with
    | Except.error e => Except.error e
    | Except.ok (some d) => Except.ok (some d)
    | Except.ok none =>
      get_barrier_dependent_in_schedule k source rest unordered
  | SchedItem.Barrier _ :: _, _ => Except.ok none
  | _ :: rest, unordered =>
    get_barrier_dependent_in_schedule k source rest unordered

/-- `gather_schedule_subloop`, phrased on the items after the opening
`EnterLoop`: splits them into the loop interior, the matching `LeaveLoop`
item, and the remaining items after the loop; `none` if unbalanced. -/
def gatherBody : Nat → List SchedItem →
    Option (List SchedItem × SchedItem × List SchedItem)
  | _, [] => none
  | lvl, item :: rest =>
    match item with
    | SchedItem.LeaveLoop n =>
      if lvl = 0 then some ([], SchedItem.LeaveLoop n, rest)
      else (gatherBody (lvl - 1) rest).map
        (fun x => (item :: x.1, x.2.1, x.2.2))
    | SchedItem.EnterLoop _ =>
      (gatherBody (lvl + 1) rest).map (fun x => (item :: x.1, x.2.1, x.2.2))
    | _ => (gatherBody lvl rest).map (fun x => (item :: x.1, x.2.1, x.2.2))

/-- The mutable state of one `insert_barriers` level: the `result` list
built so far, the set of owed instruction ids, and the once-per-loop
`loop_had_barrier` flag. -/
structure IBState where
  result : List SchedItem
  owed : List Nat
  had_barrier : Bool
deriving DecidableEq

/-- Whether a schedule item is a `Barrier`. -/
def isBarrierItem : SchedItem → Bool
  | SchedItem.Barrier _ => true
  | _ => false

/-- Whether the result list ends with a `Barrier` (the idempotence guard
of `issue_barrier`). -/
def endsWithBarrier (l : List SchedItem) : Bool :=
  match l.getLast? with
  | some (SchedItem.Barrier _) => true
  | _ => false

/-- `issue_barrier`: append a barrier unless the result already ends in
one; a pre-barrier is additionally suppressed once the loop has had a
barrier or at nesting level 0.  Issuing clears the owed set and marks the
loop as having had a barrier. -/
def issue_barrier (level : Nat) (is_pre : Bool) (dep : Option BarrierDep)
    (st : IBState) : IBState :=
  if endsWithBarrier st.result then st
  else if is_pre && (st.had_barrier || level == 0) then st
  else
    { result := st.result
        ++ [SchedItem.Barrier (dep.map (fun d => (is_pre, d.var)))],
      owed := [], had_barrier := true }

/-- The dependency-barrier loop run when an instruction is encountered:
for each of its owed dependencies (in dependency-list order), issue a
dependency barrier when a hazard exists. -/
def depBarrierLoop (k : Kernel) (level : Nat) (insn : Instruction) :
    List Nat → IBState → Except Unit IBState
  | [], st => Except.ok st
  | d :: rest, st =>
    match get_barrier_needing_dependency k insn (idToInsn k d) false with
    | Except.error e => Except.error e
    | Except.ok none => depBarrierLoop k level insn rest st
    | Except.ok (some dep) =>
      depBarrierLoop k level insn rest (issue_barrier level false (some dep) st)

/-- The owed-id scan run when a nested loop is encountered: the first
hazard of an owed id against the processed loop body, if any (the source
breaks out of the loop after the first hit). -/
def firstOwedDep (k : Kernel) (subresult : List SchedItem) :
    List Nat → Except Unit (Option BarrierDep)
  | [] => Except.ok none
  | w :: rest =>
    match get_barrier_dependent_in_schedule k w subresult false with
    | Except.error e => Except.error e
    | Except.ok (some dep) => Except.ok (some dep)
    | Except.ok none => firstOwedDep k subresult rest

/-- The pre-barrier loop run for the owed ids of a processed nested loop
body: issue a pre-barrier for each hazard against the (unordered) level
schedule. -/
def preBarrierLoop (k : Kernel) (level : Nat) (schedule : List SchedItem) :
    List Nat → IBState → Except Unit IBState
  | [], st => Except.ok st
  | w :: rest, st =>
    match get_barrier_dependent_in_schedule k w schedule true with
    | Except.error e => Except.error e
    | Except.ok (some dep) =>
      preBarrierLoop k level schedule rest (issue_barrier level true (some dep) st)
    | Except.ok none => preBarrierLoop k level schedule rest st

/-- Add an id to the owed set. -/
def addOwed (owed : List Nat) (i : Nat) : List Nat :=
  if owed.contains i then owed else owed ++ [i]

/-- Union of two owed sets (`owed_barriers.update(sub_owed_barriers)`). -/
def unionOwed (a b : List Nat) : List Nat :=
  a ++ b.filter (fun x => !(a.contains x))

/-- One expansion step of the item loop of `insert_barriers` at one
nesting level: `recur` is the loop itself.  `schedule` is the fixed full
schedule of the level (consulted by the unordered hazard scans), `items`
the remaining items to process.  A stray `LeaveLoop` or `Barrier` in the
input is the source's `assert False`. -/
def ibBody (k : Kernel)
    (recur : List SchedItem → Nat → List SchedItem → IBState →
      Except Unit IBState)
    (schedule : List SchedItem) (level : Nat) (items : List SchedItem)
    (st : IBState) : Except Unit IBState :=
  match items with
    | [] => Except.ok st
    | item :: rest =>
      match item with
      | SchedItem.EnterLoop iname =>
        match gatherBody 0 rest with
        | none => Except.error ()
        | some (interior, leaveItem, rest2) =>
          match recur interior (level + 1) interior ⟨[], [], false⟩ with
          | Except.error e => Except.error e
          | Except.ok sub =>
            match firstOwedDep k sub.result st.owed with
            | Except.error e => Except.error e
            | Except.ok odep =>
              let st1 := match odep with
                | some dep => issue_barrier level false (some dep) st
                | none => st
              match (if st1.had_barrier then Except.ok st1
                  else preBarrierLoop k level schedule sub.owed st1) with
              | Except.error e => Except.error e
              | Except.ok st2 =>
                recur schedule level rest2
                  { result := st2.result ++ [SchedItem.EnterLoop iname]
                      ++ sub.result ++ [leaveItem],
                    owed := unionOwed st2.owed sub.owed,
                    had_barrier := st2.had_barrier }
      | SchedItem.RunInstruction iid =>
        let insn := idToInsn k iid
        match depBarrierLoop k level insn
            (insn.insn_deps.filter (fun d => st.owed.contains d)) st with
        | Except.error e => Except.error e
        | Except.ok st1 =>
          if k.local_vars.contains insn.assignee then
            match get_barrier_dependent_in_schedule k iid schedule true with
            | Except.error e => Except.error e
            | Except.ok odep =>
              let st2 := match odep with
                | some dep => issue_barrier level true (some dep) st1
                | none => st1
              recur schedule level rest
                { result := st2.result ++ [item],
                  owed := addOwed st2.owed iid,
                  had_barrier := st2.had_barrier }
          else
            recur schedule level rest
              { st1 with result := st1.result ++ [item] }
      | _ => Except.error ()

/-- The fuelled item loop of `insert_barriers` (see `ibBody`). -/
def ibGo (k : Kernel) : Nat → List SchedItem → Nat → List SchedItem →
    IBState → Except Unit IBState
  | 0, _, _, _, _ => Except.error ()
  | fuel + 1, schedule, level, items, st =>
    ibBody k (fun sc lv it s => ibGo k fuel sc lv it s) schedule level items st

/-- `insert_barriers`: process one schedule at the given nesting level,
returning the barrier-augmented schedule and the owed instruction ids.
The fuel `schedule.length + 1` always suffices for the recursion (each
step consumes at least one item and nesting strictly shrinks the item
list). -/
def insert_barriers (k : Kernel) (schedule : List SchedItem) (level : Nat) :
    Except Unit (List SchedItem × List Nat) :=
  match ibGo k (schedule.length + 1) schedule level schedule ⟨[], [], false⟩ with
  | Except.error e => Except.error e
  | Except.ok st => Except.ok (st.result, st.owed)

/-- Delete the `Barrier` items of a schedule. -/
def stripBarriers (l : List SchedItem) : List SchedItem :=
  l.filter (fun i => !(isBarrierItem i))

/-- Decidable equality for `Except` results (not derived by core here). -/
instance {ε α : Type} [DecidableEq ε] [DecidableEq α] :
    DecidableEq (Except ε α) := fun a b =>
  match a, b with
  | Except.ok x, Except.ok y =>
    if h : x = y then Decidable.isTrue (by rw [h])
    else Decidable.isFalse (by intro hc; injection hc; exact h (by assumption))
  | Except.error x, Except.error y =>
    if h : x = y then Decidable.isTrue (by rw [h])
    else Decidable.isFalse (by intro hc; injection hc; exact h (by assumption))
  | Except.ok _, Except.error _ => Decidable.isFalse (by intro hc; injection hc)
  | Except.error _, Except.ok _ => Decidable.isFalse (by intro hc; injection hc)

/-- The non-parallel active inames of a schedule. -/
def activeNonPar (k : Kernel) (s : List SchedItem) : List Nat :=
  diffL (activeStack s) k.parallel_inames

/-- Every `RunInstruction` position of a schedule has its dependencies
already run and its active non-parallel inames matching its required
non-parallel inames up to its boost-exemption set. -/
def RunPosOK (k : Kernel) (s : List SchedItem) : Prop :=
  ∀ j a, s[j]? = some (SchedItem.RunInstruction a) →
    (∀ d ∈ (idToInsn k a).insn_deps, d ∈ runIds (s.take j)) ∧
    (∀ x, x ∉ (idToInsn k a).boostable_into →
      (x ∈ activeNonPar k (s.take j) ↔ x ∈ wantOf k (idToInsn k a)))

/-- Every `LeaveLoop` position of a schedule passes the
run-since-matching-enter check at the point it was appended. -/
def LeavePosOK (s : List SchedItem) : Prop :=
  ∀ j x, s[j]? = some (SchedItem.LeaveLoop x) →
    ranSinceEnter (s.take j) = true

/-- The invariant maintained by the search along every partial
schedule. -/
def GoodPrefix (k : Kernel) (s : List SchedItem) : Prop :=
  (runIds s).Nodup ∧ (∀ i ∈ runIds s, i ∈ allInsnIds k) ∧
    RunPosOK k s ∧ LeavePosOK s

/-- A schedule is complete: no active loops and no unscheduled
instructions. -/
def Complete (k : Kernel) (s : List SchedItem) : Prop :=
  activeStack s = [] ∧ unscheduledIds k s = []

/-- Spec scenario B kernel: instruction 0 requires iname 1, instruction 2
depends on instruction 0 and requires no inames. -/
def KscB : Kernel :=
  { instructions := [⟨0, [], [1], 10, [], []⟩, ⟨2, [0], [], 11, [10], []⟩],
    local_vars := [], parallel_inames := [], breakable_inames := [],
    lowest_priority_inames := [], loop_nest_map := [(1, [])] }

/-- A kernel stuck from the start: its only instruction requires iname 1,
whose nesting parent 5 can never be active. -/
def KscStuck : Kernel :=
  { instructions := [⟨0, [], [1], 10, [], []⟩],
    local_vars := [], parallel_inames := [], breakable_inames := [],
    lowest_priority_inames := [], loop_nest_map := [(1, [5])] }

/-- Spec scenario E kernel: iname 3 is in the lowest-priority list yet
required by the only instruction. -/
def KscLowest : Kernel :=
  { instructions := [⟨7, [], [3], 10, [], []⟩],
    local_vars := [], parallel_inames := [], breakable_inames := [],
    lowest_priority_inames := [3], loop_nest_map := [(3, [])] }

/-- An instruction that both reads and writes variable 1. -/
def IselfRW : Instruction := ⟨0, [], [], 1, [1], []⟩

/-- A kernel in which variable 1 is locally shared. -/
def KselfRW : Kernel :=
  { instructions := [IselfRW], local_vars := [1], parallel_inames := [],
    breakable_inames := [], lowest_priority_inames := [],
    loop_nest_map := [] }

/-- Loop-nesting depth change of one schedule item. -/
def stepDepth (d : Nat) (item : SchedItem) : Nat :=
  match item with
  | SchedItem.EnterLoop _ => d + 1
  | SchedItem.LeaveLoop _ => d - 1
  | _ => d

/-- Loop-nesting depth after a list of items, starting from `d`. -/
def depthAfter (l : List SchedItem) (d : Nat) : Nat :=
  l.foldl stepDepth d

/-- The comments of the barriers sitting at relative nesting depth 0 of a
result list (those emitted by the current `insert_barriers` level, as
opposed to barriers inside nested subloops). -/
def topBarrierComments : List SchedItem → Nat → List (Option (Bool × Nat))
  | [], _ => []
  | SchedItem.Barrier c :: r, 0 => c :: topBarrierComments r 0
  | item :: r, d => topBarrierComments r (stepDepth d item)

/-- Whether a barrier comment marks a pre-barrier. -/
def isPreComment : Option (Bool × Nat) → Bool
  | some (true, _) => true
  | _ => false

/-- A list that, entered at any positive depth, returns to the same depth
and contributes no depth-0 barrier: the shape of every nested-subloop
result. -/
def DeepSafe (l : List SchedItem) : Prop :=
  ∀ d : Nat, 1 ≤ d → depthAfter l d = d ∧ topBarrierComments l d = []

/-- The invariant of one barrier-insertion level underlying the
pre-barrier discipline: the level's own result is depth-balanced, the
`loop_had_barrier` flag tracks whether the level has emitted any
own-depth barrier, any own-depth pre-barrier is the first own-depth
barrier, and at level 0 no own-depth barrier is a pre-barrier. -/
def PreBarrierInv (level : Nat) (st : IBState) : Prop :=
  depthAfter st.result 0 = 0 ∧
  (st.had_barrier = true ↔ topBarrierComments st.result 0 ≠ []) ∧
  (∀ j c, (topBarrierComments st.result 0)[j]? = some c →
    isPreComment c = true → j = 0) ∧
  (level = 0 → ∀ c ∈ topBarrierComments st.result 0,
    isPreComment c = false)

/-- Scenario kernel for a read-after-write hazard: instruction 0 writes
locally-shared variable 5; instruction 1 reads 5 and depends on 0. -/
def KscRAW : Kernel :=
  { instructions := [⟨0, [], [], 5, [], []⟩, ⟨1, [0], [], 6, [5], []⟩],
    local_vars := [5], parallel_inames := [], breakable_inames := [],
    lowest_priority_inames := [], loop_nest_map := [] }

/-- Scenario kernel for a write-after-read hazard with the read first:
instruction 0 only reads locally-shared variable 9 (its assignee 20 is
not shared); instruction 1 writes 9 and depends on 0. -/
def KscWAR : Kernel :=
  { instructions := [⟨0, [], [], 20, [9], []⟩, ⟨1, [0], [], 9, [], []⟩],
    local_vars := [9], parallel_inames := [], breakable_inames := [],
    lowest_priority_inames := [], loop_nest_map := [] }

/-- Scenario kernel for a write-after-read hazard whose source is itself
a local writer: instruction 0 writes locally-shared variable 8 and reads
locally-shared variable 9; instruction 1 writes 9 and depends on 0. -/
def KscWARW : Kernel :=
  { instructions := [⟨0, [], [], 8, [9], []⟩, ⟨1, [0], [], 9, [], []⟩],
    local_vars := [8, 9], parallel_inames := [], breakable_inames := [],
    lowest_priority_inames := [], loop_nest_map := [] }

/-- `RunInstruction i` sits at position `p` of a result list. -/
def runsAt (res : List SchedItem) (p i : Nat) : Prop :=
  res[p]? = some (SchedItem.RunInstruction i)

/-- Some barrier sits strictly after position `p`. -/
def hasBarrierAfter (res : List SchedItem) (p : Nat) : Prop :=
  ∃ m c, p < m ∧ res[m]? = some (SchedItem.Barrier c)

/-- Some barrier sits strictly between positions `p` and `q`. -/
def barrierBetween (res : List SchedItem) (p q : Nat) : Prop :=
  ∃ m c, p < m ∧ m < q ∧ res[m]? = some (SchedItem.Barrier c)

/-- The owed-set invariant for one instruction id: wherever the source
writer has run in the result so far, either it is still owed (so a later
barrier will be issued for it) or a barrier already follows it. -/
def OwedInv (sId : Nat) (st : IBState) : Prop :=
  ∀ p, runsAt st.result p sId → sId ∈ st.owed ∨ hasBarrierAfter st.result p

/-- Every source-before-target run pair in the result is separated by a
barrier. -/
def PairSep (sId tId : Nat) (res : List SchedItem) : Prop :=
  ∀ p q, p < q → runsAt res p sId → runsAt res q tId → barrierBetween res p q

/-- `b` extends `a` by barrier items only. -/
def BarrierExt (a b : List SchedItem) : Prop :=
  ∃ t, b = a ++ t ∧ ∀ x ∈ t, isBarrierItem x = true

/-! ### Basic lemmas about the set-style list operations -/

lemma subsetB_iff (a b : List Nat) : subsetB a b = true ↔ ∀ x ∈ a, x ∈ b := by
  unfold subsetB
  simp [List.all_eq_true, List.elem_iff]

lemma setEqB_iff (a b : List Nat) :
    setEqB a b = true ↔ ∀ x, x ∈ a ↔ x ∈ b := by
  unfold setEqB
  rw [Bool.and_eq_true, subsetB_iff, subsetB_iff]
  constructor
  · rintro ⟨h1, h2⟩ x
    exact ⟨fun hx => h1 x hx, fun hx => h2 x hx⟩
  · intro h
    exact ⟨fun x hx => (h x).mp hx, fun x hx => (h x).mpr hx⟩

lemma mem_diffL (a b : List Nat) (x : Nat) :
    x ∈ diffL a b ↔ x ∈ a ∧ x ∉ b := by
  unfold diffL
  simp [List.mem_filter, List.elem_iff]

/-! ### Lemmas about `runIds` and `activeStack` -/

lemma runIds_append (s t : List SchedItem) :
    runIds (s ++ t) = runIds s ++ runIds t := by
  unfold runIds
  exact List.filterMap_append s t _

@[simp] lemma runIds_nil : runIds [] = [] := rfl

@[simp] lemma runIds_run (i : Nat) :
    runIds [SchedItem.RunInstruction i] = [i] := rfl

@[simp] lemma runIds_enter (i : Nat) : runIds [SchedItem.EnterLoop i] = [] := rfl

@[simp] lemma runIds_leave (i : Nat) : runIds [SchedItem.LeaveLoop i] = [] := rfl

@[simp] lemma runIds_barrier (c : Option (Bool × Nat)) :
    runIds [SchedItem.Barrier c] = [] := rfl

lemma activeStack_append (s t : List SchedItem) :
    activeStack (s ++ t) = t.foldl activeStep (activeStack s) := by
  unfold activeStack
  exact List.foldl_append _ _ s t

@[simp] lemma activeStack_append_run (s : List SchedItem) (i : Nat) :
    activeStack (s ++ [SchedItem.RunInstruction i]) = activeStack s := by
  rw [activeStack_append]; rfl

@[simp] lemma activeStack_append_enter (s : List SchedItem) (i : Nat) :
    activeStack (s ++ [SchedItem.EnterLoop i]) = i :: activeStack s := by
  rw [activeStack_append]; rfl

@[simp] lemma activeStack_append_leave (s : List SchedItem) (i : Nat) :
    activeStack (s ++ [SchedItem.LeaveLoop i]) = (activeStack s).tail := by
  rw [activeStack_append]; rfl

lemma mem_unscheduledIds (k : Kernel) (s : List SchedItem) (i : Nat) :
    i ∈ unscheduledIds k s ↔ i ∈ allInsnIds k ∧ i ∉ runIds s := by
  unfold unscheduledIds
  simp [List.mem_filter, List.elem_iff]

lemma mem_runIds (l : List SchedItem) (i : Nat) :
    i ∈ runIds l ↔ ∃ n : Nat, l[n]? = some (SchedItem.RunInstruction i) := by
  unfold runIds
  rw [List.mem_filterMap]
  constructor
  · rintro ⟨item, hmem, hitem⟩
    match item, hitem with
    | SchedItem.RunInstruction j, hitem =>
      have : j = i := by simpa using hitem
      subst this
      obtain ⟨n, hn, he⟩ := List.mem_iff_getElem.mp hmem
      exact ⟨n, by rw [List.getElem?_eq_getElem hn]; simp [he]⟩
  · rintro ⟨n, hn⟩
    exact ⟨SchedItem.RunInstruction i, List.getElem?_mem hn, rfl⟩

/-! ### Invariants of the schedules yielded by the search -/

lemma getElem?_append_sing {α : Type} (s : List α) (it : α) (j : Nat) (x : α)
    (h : (s ++ [it])[j]? = some x) :
    (j < s.length ∧ s[j]? = some x) ∨ (j = s.length ∧ it = x) := by
  rcases lt_trichotomy j s.length with hj | hj | hj
  · exact Or.inl ⟨hj, by rwa [List.getElem?_append_left hj] at h⟩
  · subst hj
    rw [List.getElem?_concat_length] at h
    exact Or.inr ⟨rfl, by simpa using h⟩
  · exfalso
    rw [List.getElem?_eq_none (by simp; omega)] at h
    exact Option.noConfusion h

lemma findRunnable_some {k : Kernel} {s : List SchedItem} {ab : Option Bool}
    {iid : Nat} (h : findRunnable k s ab = some iid) :
    iid ∈ allInsnIds k ∧ iid ∉ runIds s ∧ isRunnable k s ab iid = true := by
  unfold findRunnable at h
  have hm := List.mem_of_find?_eq_some h
  have hp := List.find?_some h
  rw [mem_unscheduledIds] at hm
  exact ⟨hm.1, hm.2, hp⟩

lemma canLeaveLoop_some {k : Kernel} {s : List SchedItem} {lel : Nat}
    (h : canLeaveLoop k s = some lel) : ranSinceEnter s = true := by
  unfold canLeaveLoop at h
  split at h
  · exact Option.noConfusion h
  · split at h
    · rename_i hcond
      exact (Bool.and_eq_true .. ▸ hcond).2
    · exact Option.noConfusion h

lemma ranSinceEnter_append_enter (s : List SchedItem) (x : Nat) :
    ranSinceEnter (s ++ [SchedItem.EnterLoop x]) = false := by
  unfold ranSinceEnter
  rw [List.reverse_append]
  rfl

lemma want_have_iff {k : Kernel} {ab : Option Bool} {insn : Instruction}
    {act : List Nat}
    (h : setEqB (wantOf k insn) (haveOf k act ab insn) = true) :
    ∀ x, x ∉ insn.boostable_into →
      (x ∈ diffL act k.parallel_inames ↔ x ∈ wantOf k insn) := by
  intro x hx
  rw [setEqB_iff] at h
  unfold haveOf at h
  by_cases hab : ab = some true
  · rw [if_pos hab] at h
    constructor
    · intro hmem
      exact (h x).mpr ((mem_diffL _ _ x).mpr ⟨hmem, hx⟩)
    · intro hmem
      exact ((mem_diffL _ _ x).mp ((h x).mp hmem)).1
  · rw [if_neg hab] at h
    exact (h x).symm

lemma RunPosOK_append {k : Kernel} {s : List SchedItem} {it : SchedItem}
    (h : RunPosOK k s)
    (hnew : ∀ a, it = SchedItem.RunInstruction a →
      (∀ d ∈ (idToInsn k a).insn_deps, d ∈ runIds s) ∧
      (∀ x, x ∉ (idToInsn k a).boostable_into →
        (x ∈ activeNonPar k s ↔ x ∈ wantOf k (idToInsn k a)))) :
    RunPosOK k (s ++ [it]) := by
  intro j a hj
  rcases getElem?_append_sing s it j _ hj with ⟨hlt, hs⟩ | ⟨hlen, hit⟩
  · rw [List.take_append_of_le_length (le_of_lt hlt)]
    exact h j a hs
  · subst hlen
    rw [List.take_append_of_le_length (le_refl _), List.take_length]
    exact hnew a hit

lemma LeavePosOK_append {s : List SchedItem} {it : SchedItem}
    (h : LeavePosOK s)
    (hnew : ∀ x, it = SchedItem.LeaveLoop x → ranSinceEnter s = true) :
    LeavePosOK (s ++ [it]) := by
  intro j x hj
  rcases getElem?_append_sing s it j _ hj with ⟨hlt, hs⟩ | ⟨hlen, hit⟩
  · rw [List.take_append_of_le_length (le_of_lt hlt)]
    exact h j x hs
  · subst hlen
    rw [List.take_append_of_le_length (le_refl _), List.take_length]
    exact hnew x hit

lemma GoodPrefix_nil (k : Kernel) : GoodPrefix k [] := by
  refine ⟨by simp, by simp, ?_, ?_⟩ <;> intro j a hj <;> simp at hj

lemma GoodPrefix_append_run {k : Kernel} {s : List SchedItem}
    {ab : Option Bool} {iid : Nat}
    (hG : GoodPrefix k s) (hall : iid ∈ allInsnIds k) (hnot : iid ∉ runIds s)
    (hrun : isRunnable k s ab iid = true) :
    GoodPrefix k (s ++ [SchedItem.RunInstruction iid]) := by
  obtain ⟨hN, hM, hR, hL⟩ := hG
  unfold isRunnable at hrun
  rw [Bool.and_eq_true] at hrun
  obtain ⟨hdm, hse⟩ := hrun
  refine ⟨?_, ?_, ?_, ?_⟩
  · rw [runIds_append, runIds_run, List.nodup_append]
    refine ⟨hN, List.nodup_singleton _, ?_⟩
    intro x hx hx2
    rw [List.mem_singleton] at hx2
    subst hx2
    exact hnot hx
  · intro i hi
    rw [runIds_append, runIds_run, List.mem_append, List.mem_singleton] at hi
    rcases hi with hi | hi
    · exact hM i hi
    · subst hi; exact hall
  · apply RunPosOK_append hR
    intro a ha
    have ha2 : iid = a := by injection ha
    subst ha2
    constructor
    · unfold depsMet at hdm
      exact fun d hd => (subsetB_iff _ _).mp hdm d hd
    · exact want_have_iff hse
  · apply LeavePosOK_append hL
    intro x hx
    exact absurd hx (by simp)

lemma GoodPrefix_append_enter {k : Kernel} {s : List SchedItem} {iname : Nat}
    (hG : GoodPrefix k s) :
    GoodPrefix k (s ++ [SchedItem.EnterLoop iname]) := by
  obtain ⟨hN, hM, hR, hL⟩ := hG
  refine ⟨?_, ?_, ?_, ?_⟩
  · rwa [runIds_append, runIds_enter, List.append_nil]
  · intro i hi
    rw [runIds_append, runIds_enter, List.append_nil] at hi
    exact hM i hi
  · exact RunPosOK_append hR (fun a ha => absurd ha (by simp))
  · exact LeavePosOK_append hL (fun x hx => absurd hx (by simp))

lemma GoodPrefix_append_leave {k : Kernel} {s : List SchedItem} {lel : Nat}
    (hG : GoodPrefix k s) (hrse : ranSinceEnter s = true) :
    GoodPrefix k (s ++ [SchedItem.LeaveLoop lel]) := by
  obtain ⟨hN, hM, hR, hL⟩ := hG
  refine ⟨?_, ?_, ?_, ?_⟩
  · rwa [runIds_append, runIds_leave, List.append_nil]
  · intro i hi
    rw [runIds_append, runIds_leave, List.append_nil] at hi
    exact hM i hi
  · exact RunPosOK_append hR (fun a ha => absurd ha (by simp))
  · exact LeavePosOK_append hL (fun x _ => hrse)

lemma genStep45_invariant (k : Kernel)
    (recur : List SchedItem → Option Bool → List (List SchedItem))
    (IH : ∀ s ab r, r ∈ recur s ab → GoodPrefix k s →
      GoodPrefix k r ∧ (∃ t, r = s ++ t) ∧ Complete k r)
    (s : List SchedItem) (ab : Option Bool) (r : List SchedItem)
    (hr : r ∈ genStep45 k recur s ab) (hG : GoodPrefix k s) :
    GoodPrefix k r ∧ (∃ t, r = s ++ t) ∧ Complete k r := by
  unfold genStep45 at hr
  split at hr
  · rename_i hcomp
    rw [List.mem_singleton] at hr
    subst hr
    rw [Bool.and_eq_true] at hcomp
    exact ⟨hG, ⟨[], by simp⟩,
      List.isEmpty_iff.mp hcomp.1, List.isEmpty_iff.mp hcomp.2⟩
  · split at hr
    · exact IH _ _ r hr hG
    · exact absurd hr (List.not_mem_nil r)

lemma genBody_invariant (k : Kernel) (lp : List Nat)
    (recur : List SchedItem → Option Bool → List (List SchedItem))
    (IH : ∀ s ab r, r ∈ recur s ab → GoodPrefix k s →
      GoodPrefix k r ∧ (∃ t, r = s ++ t) ∧ Complete k r)
    (s : List SchedItem) (ab : Option Bool) (r : List SchedItem)
    (hr : r ∈ genBody k lp recur s ab) (hG : GoodPrefix k s) :
    GoodPrefix k r ∧ (∃ t, r = s ++ t) ∧ Complete k r := by
  unfold genBody at hr
  split at hr
  · rename_i iid hfr
    obtain ⟨h1, h2, h3⟩ := findRunnable_some hfr
    obtain ⟨hGr, ⟨t, ht⟩, hC⟩ := IH _ _ r hr (GoodPrefix_append_run hG h1 h2 h3)
    exact ⟨hGr, ⟨SchedItem.RunInstruction iid :: t, by rw [ht]; simp⟩, hC⟩
  · split at hr
    · rename_i lel hcl
      obtain ⟨hGr, ⟨t, ht⟩, hC⟩ := IH _ _ r hr
        (GoodPrefix_append_leave hG (canLeaveLoop_some hcl))
      exact ⟨hGr, ⟨SchedItem.LeaveLoop lel :: t, by rw [ht]; simp⟩, hC⟩
    · unfold genStep3 at hr
      split at hr
      · exact genStep45_invariant k recur IH s ab r hr hG
      · split at hr
        · rename_i tr heq
          have htr := List.mem_of_find?_eq_some heq
          rw [List.mem_map] at htr
          obtain ⟨tier, htier, htr2⟩ := htr
          subst htr2
          rw [List.mem_flatten] at hr
          obtain ⟨l, hl, hrl⟩ := hr
          rw [List.mem_map] at hl
          obtain ⟨iname, hiname, hl2⟩ := hl
          subst hl2
          obtain ⟨hGr, ⟨t, ht⟩, hC⟩ := IH _ _ r hrl (GoodPrefix_append_enter hG)
          exact ⟨hGr, ⟨SchedItem.EnterLoop iname :: t, by rw [ht]; simp⟩, hC⟩
        · exact genStep45_invariant k recur IH s ab r hr hG

/-- The master invariant of the search: every schedule it yields extends
the starting partial schedule, is complete, and satisfies the positional
invariants (dependencies run before, inames matching up to boost
exemptions, leave checks). -/
lemma gen_invariant (k : Kernel) (lp : List Nat) :
    ∀ fuel s ab r,
      r ∈ generate_loop_schedules_internal k lp fuel s ab →
      GoodPrefix k s →
      GoodPrefix k r ∧ (∃ t, r = s ++ t) ∧ Complete k r := by
  intro fuel
  induction fuel with
  | zero =>
    intro s ab r hr hG
    simp only [generate_loop_schedules_internal] at hr
    exact absurd hr (List.not_mem_nil r)
  | succ n IHf =>
    intro s ab r hr hG
    simp only [generate_loop_schedules_internal] at hr
    exact genBody_invariant k lp _
      (fun s2 ab2 r2 h hg => IHf s2 ab2 r2 h hg) s ab r hr hG

lemma getElem?_take_some {α : Type} {l : List α} {j n : Nat} {x : α}
    (h : (l.take j)[n]? = some x) : n < j ∧ l[n]? = some x := by
  have hn : n < j := by
    by_contra hc
    push_neg at hc
    rw [List.getElem?_eq_none (by simp; omega)] at h
    exact Option.noConfusion h
  exact ⟨hn, by rwa [List.getElem?_take_of_lt hn] at h⟩

lemma unscheduled_nil {k : Kernel} {s : List SchedItem}
    (h : unscheduledIds k s = []) :
    ∀ i ∈ allInsnIds k, i ∈ runIds s := by
  intro i hi
  unfold unscheduledIds at h
  have := List.filter_eq_nil_iff.mp h i hi
  simpa [List.elem_iff] using this

lemma find?_id_eq {l : List Instruction} {insn : Instruction}
    (hN : (l.map (fun i => i.id)).Nodup) (hm : insn ∈ l) :
    l.find? (fun i => i.id == insn.id) = some insn := by
  induction l with
  | nil => cases hm
  | cons a t ih =>
    rw [List.map_cons, List.nodup_cons] at hN
    rcases List.mem_cons.mp hm with h | h
    · subst h
      rw [List.find?_cons_of_pos _ (by simp)]
    · by_cases ha : a.id = insn.id
      · exact absurd (ha ▸ List.mem_map_of_mem (fun i => i.id) h) hN.1
      · rw [List.find?_cons_of_neg _ (by simp [ha])]
        exact ih hN.2 h

lemma idToInsn_of_mem {k : Kernel} {insn : Instruction}
    (hN : (allInsnIds k).Nodup) (hm : insn ∈ k.instructions) :
    idToInsn k insn.id = insn := by
  unfold idToInsn
  rw [find?_id_eq hN hm]
  rfl

/-- C2: every schedule yielded by the search runs exactly the kernel's
instruction ids: the multiset of `RunInstruction` ids is a permutation of
the kernel's instruction-id list (assumed duplicate-free). -/
theorem C2_coverage (k : Kernel) (lp : List Nat) (fuel : Nat)
    (ab : Option Bool) (r : List SchedItem)
    (hN : (allInsnIds k).Nodup)
    (hr : r ∈ generate_loop_schedules_internal k lp fuel [] ab) :
    (runIds r).Perm (allInsnIds k) := by
  obtain ⟨⟨hnd, hmem, _, _⟩, _, _, hun⟩ :=
    gen_invariant k lp fuel [] ab r hr (GoodPrefix_nil k)
  refine (List.perm_ext_iff_of_nodup hnd hN).mpr ?_
  intro a
  exact ⟨fun h => hmem a h, fun h => unscheduled_nil hun a h⟩

/-- C3: in every schedule yielded by the search, each declared dependency
`bId` of an instruction `A` has its `RunInstruction` strictly before
`A`'s. -/
theorem C3_dependency_order (k : Kernel) (lp : List Nat) (fuel : Nat)
    (ab : Option Bool) (r : List SchedItem) (A : Instruction) (bId : Nat)
    (hN : (allInsnIds k).Nodup)
    (hA : A ∈ k.instructions) (hb : bId ∈ A.insn_deps)
    (hr : r ∈ generate_loop_schedules_internal k lp fuel [] ab) :
    ∃ i j : Nat, i < j ∧ r[i]? = some (SchedItem.RunInstruction bId) ∧
      r[j]? = some (SchedItem.RunInstruction A.id) := by
  obtain ⟨⟨hnd, hmem, hRP, _⟩, _, _, hun⟩ :=
    gen_invariant k lp fuel [] ab r hr (GoodPrefix_nil k)
  have hAin : A.id ∈ runIds r :=
    unscheduled_nil hun A.id (List.mem_map_of_mem (fun i => i.id) hA)
  obtain ⟨j, hj⟩ := (mem_runIds r A.id).mp hAin
  have hdeps := (hRP j A.id hj).1
  rw [idToInsn_of_mem hN hA] at hdeps
  obtain ⟨n, hn⟩ := (mem_runIds _ bId).mp (hdeps bId hb)
  obtain ⟨hlt, hn2⟩ := getElem?_take_some hn
  exact ⟨n, j, hlt, hn2, hj⟩

/-- C4: in every schedule yielded by the search, at each
`RunInstruction` the set of active non-parallel inames agrees with the
instruction's required non-parallel inames outside the instruction's
boost-exemption set (i.e. it equals them or differs only by
boost-exempt inames). -/
theorem C4_iname_exact (k : Kernel) (lp : List Nat) (fuel : Nat)
    (ab : Option Bool) (r : List SchedItem) (j iid : Nat)
    (hr : r ∈ generate_loop_schedules_internal k lp fuel [] ab)
    (hj : r[j]? = some (SchedItem.RunInstruction iid)) :
    ∀ x, x ∉ (idToInsn k iid).boostable_into →
      (x ∈ activeNonPar k (r.take j) ↔ x ∈ wantOf k (idToInsn k iid)) := by
  obtain ⟨⟨_, _, hRP, _⟩, _, _⟩ :=
    gen_invariant k lp fuel [] ab r hr (GoodPrefix_nil k)
  exact (hRP j iid hj).2

/-- C5: in every schedule yielded by the search, a `LeaveLoop` is only
placed after an instruction has been run since the matching `EnterLoop`
(first conjunct: the source's backward check holds at every leave
position), so in particular no `EnterLoop` is immediately followed by a
`LeaveLoop` (second conjunct). -/
theorem C5_no_empty_loops (k : Kernel) (lp : List Nat) (fuel : Nat)
    (ab : Option Bool) (r : List SchedItem)
    (hr : r ∈ generate_loop_schedules_internal k lp fuel [] ab) :
    (∀ j x, r[j]? = some (SchedItem.LeaveLoop x) →
      ranSinceEnter (r.take j) = true) ∧
    (∀ j x y, ¬(r[j]? = some (SchedItem.EnterLoop x) ∧
      r[j+1]? = some (SchedItem.LeaveLoop y))) := by
  obtain ⟨⟨_, _, _, hLP⟩, _, _⟩ :=
    gen_invariant k lp fuel [] ab r hr (GoodPrefix_nil k)
  refine ⟨hLP, ?_⟩
  rintro j x y ⟨hj, hj1⟩
  have h1 := hLP (j + 1) y hj1
  have h2 : r.take (j + 1) = r.take j ++ [SchedItem.EnterLoop x] := by
    rw [List.take_succ, hj]
    rfl
  rw [h2, ranSinceEnter_append_enter] at h1
  exact Bool.noConfusion h1


/-- C6: in the search's strict mode (`allow_boost` exactly `False`), when
no instruction is runnable, no loop can be left, no loop is a useful
entry candidate, and the partial schedule is incomplete, the search
retries the very same partial schedule with boosting enabled instead of
declaring a dead end. -/
theorem C6_boost_retry (k : Kernel) (lp : List Nat) (fuel : Nat)
    (s : List SchedItem)
    (h1 : findRunnable k s (some false) = none)
    (h2 : canLeaveLoop k s = none)
    (h3 : usefulLoops k s (some false) = [])
    (h4 : ((activeStack s).isEmpty && (unscheduledIds k s).isEmpty) = false) :
    generate_loop_schedules_internal k lp (fuel + 1) s (some false) =
      generate_loop_schedules_internal k lp fuel s (some true) := by
  have hstep45 : genStep45 k
      (fun s2 ab2 => generate_loop_schedules_internal k lp fuel s2 ab2)
      s (some false) =
      generate_loop_schedules_internal k lp fuel s (some true) := by
    unfold genStep45
    rw [h4]
    simp
  simp only [generate_loop_schedules_internal]
  unfold genBody
  split
  · rename_i iid hfr
    rw [h1] at hfr
    exact Option.noConfusion hfr
  · split
    · rename_i lel hcl
      rw [h2] at hcl
      exact Option.noConfusion hcl
    · unfold genStep3
      split
      · exact hstep45
      · rw [h3]
        have htiers : buildTiers lp k.lowest_priority_inames [] = [[]] := by
          unfold buildTiers
          simp [List.contains]
        rw [htiers]
        split
        · rename_i r2 heq
          simp at heq
        · exact hstep45

/-- C9: priority tiering never excludes a useful iname — every iname in
`useful_loops` belongs to some priority tier (first conjunct) — and in
the concrete scenario of a lowest-priority iname required by the only
instruction, the search does enter that loop and yields a complete
schedule (second conjunct). -/
theorem C9_lowest_priority_entered :
    (∀ (lp lowest useful : List Nat) (iname : Nat), iname ∈ useful →
      ∃ tier ∈ buildTiers lp lowest useful, iname ∈ tier) ∧
    generate_loop_schedules_internal KscLowest [] 6 [] none =
      [[SchedItem.EnterLoop 3, SchedItem.RunInstruction 7,
        SchedItem.LeaveLoop 3]] := by
  constructor
  · intro lp lowest useful iname hin
    unfold buildTiers
    by_cases hlow : iname ∈ lowest
    · refine ⟨[iname], ?_, List.mem_singleton.mpr rfl⟩
      rw [List.mem_append]
      right
      rw [List.mem_map]
      exact ⟨iname, List.mem_filter.mpr ⟨hlow, by simp [List.elem_iff, hin]⟩,
        rfl⟩
    · by_cases hud : (useful.filter (fun i => lp.contains i)).isEmpty
      · refine ⟨useful.filter (fun i => !(lowest.contains i)), ?_, ?_⟩
        · rw [List.mem_append]
          left
          rw [if_pos hud]
          exact List.mem_singleton.mpr rfl
        · exact List.mem_filter.mpr ⟨hin, by simp [List.elem_iff, hlow]⟩
      · by_cases hlp : iname ∈ lp
        · refine ⟨[iname], ?_, List.mem_singleton.mpr rfl⟩
          rw [List.mem_append]
          left
          rw [if_neg hud, List.mem_append]
          left
          rw [List.mem_map]
          refine ⟨iname, List.mem_filter.mpr ⟨hlp, ?_⟩, rfl⟩
          simp [List.elem_iff, List.mem_filter, hin, hlp, hlow]
        · refine ⟨useful.filter
              (fun i => !(lp.contains i) && !(lowest.contains i)), ?_, ?_⟩
          · rw [List.mem_append]
            left
            rw [if_neg hud, List.mem_append]
            right
            exact List.mem_singleton.mpr rfl
          · exact List.mem_filter.mpr
              ⟨hin, by simp [List.elem_iff, hlp, hlow]⟩
  · decide

/-- Witness for C2 at the scenario-B kernel: the yielded schedule's run
ids are a permutation of the kernel's instruction ids. -/
theorem C2_coverage_witness :
    (runIds [SchedItem.EnterLoop 1, SchedItem.RunInstruction 0,
      SchedItem.LeaveLoop 1, SchedItem.RunInstruction 2]).Perm
      (allInsnIds KscB) :=
  C2_coverage KscB [] 8 none
    [SchedItem.EnterLoop 1, SchedItem.RunInstruction 0,
      SchedItem.LeaveLoop 1, SchedItem.RunInstruction 2]
    (by decide) (by decide)

/-- Witness for C3 at the scenario-B kernel: instruction 2 depends on
instruction 0 and runs strictly after it. -/
theorem C3_dependency_order_witness :
    ∃ i j : Nat, i < j ∧
      ([SchedItem.EnterLoop 1, SchedItem.RunInstruction 0,
        SchedItem.LeaveLoop 1, SchedItem.RunInstruction 2])[i]? =
        some (SchedItem.RunInstruction 0) ∧
      ([SchedItem.EnterLoop 1, SchedItem.RunInstruction 0,
        SchedItem.LeaveLoop 1, SchedItem.RunInstruction 2])[j]? =
        some (SchedItem.RunInstruction
          (Instruction.mk 2 [0] [] 11 [10] []).id) :=
  C3_dependency_order KscB [] 8 none
    [SchedItem.EnterLoop 1, SchedItem.RunInstruction 0,
      SchedItem.LeaveLoop 1, SchedItem.RunInstruction 2]
    (Instruction.mk 2 [0] [] 11 [10] []) 0
    (by decide) (by decide) (by decide) (by decide)

/-- Witness for C4 at the scenario-B kernel: at the run of instruction 0
(position 1), the non-boost-exempt iname 1 is active exactly as
required. -/
theorem C4_iname_exact_witness :
    1 ∈ activeNonPar KscB
        (([SchedItem.EnterLoop 1, SchedItem.RunInstruction 0,
          SchedItem.LeaveLoop 1, SchedItem.RunInstruction 2]).take 1) ↔
      1 ∈ wantOf KscB (idToInsn KscB 0) :=
  C4_iname_exact KscB [] 8 none
    [SchedItem.EnterLoop 1, SchedItem.RunInstruction 0,
      SchedItem.LeaveLoop 1, SchedItem.RunInstruction 2] 1 0
    (by decide) (by decide) 1 (by decide)

/-- Witness for C5 at the scenario-B kernel: the leave of loop 1 at
position 2 passes the run-since-enter check. -/
theorem C5_no_empty_loops_witness :
    ranSinceEnter (([SchedItem.EnterLoop 1, SchedItem.RunInstruction 0,
      SchedItem.LeaveLoop 1, SchedItem.RunInstruction 2]).take 2) = true :=
  (C5_no_empty_loops KscB [] 8 none
    [SchedItem.EnterLoop 1, SchedItem.RunInstruction 0,
      SchedItem.LeaveLoop 1, SchedItem.RunInstruction 2]
    (by decide)).1 2 1 (by decide)

/-- Witness for C6 at the stuck kernel: the strict-mode search on the
empty partial schedule equals the boosted search on the same schedule. -/
theorem C6_boost_retry_witness :
    generate_loop_schedules_internal KscStuck [] 4 [] (some false) =
      generate_loop_schedules_internal KscStuck [] 3 [] (some true) :=
  C6_boost_retry KscStuck [] 3 []
    (by decide) (by decide) (by decide) (by decide)

/-- Witness for C9: iname 3, lowest-priority yet useful, is inside some
tier, and the scenario-E search yields the full schedule through it. -/
theorem C9_lowest_priority_entered_witness :
    (∃ tier ∈ buildTiers [] [3] [3], 3 ∈ tier) ∧
      generate_loop_schedules_internal KscLowest [] 6 [] none =
        [[SchedItem.EnterLoop 3, SchedItem.RunInstruction 7,
          SchedItem.LeaveLoop 3]] :=
  ⟨C9_lowest_priority_entered.1 [] [3] [3] 3 (by decide),
    C9_lowest_priority_entered.2⟩

/-! ### Structural lemmas about the barrier pass -/

lemma stripBarriers_append (a b : List SchedItem) :
    stripBarriers (a ++ b) = stripBarriers a ++ stripBarriers b := by
  unfold stripBarriers
  exact List.filter_append _ _

@[simp] lemma stripBarriers_nil : stripBarriers [] = [] := rfl

@[simp] lemma stripBarriers_run (i : Nat) :
    stripBarriers [SchedItem.RunInstruction i] = [SchedItem.RunInstruction i] :=
  rfl

@[simp] lemma stripBarriers_enter (i : Nat) :
    stripBarriers [SchedItem.EnterLoop i] = [SchedItem.EnterLoop i] := rfl

@[simp] lemma stripBarriers_leave (i : Nat) :
    stripBarriers [SchedItem.LeaveLoop i] = [SchedItem.LeaveLoop i] := rfl

@[simp] lemma stripBarriers_barrier (c : Option (Bool × Nat)) :
    stripBarriers [SchedItem.Barrier c] = [] := rfl

lemma issue_barrier_strip (level : Nat) (is_pre : Bool)
    (dep : Option BarrierDep) (st : IBState) :
    stripBarriers (issue_barrier level is_pre dep st).result =
      stripBarriers st.result := by
  unfold issue_barrier
  split
  · rfl
  · split
    · rfl
    · simp [stripBarriers_append]

lemma depBarrierLoop_strip {k : Kernel} {level : Nat} {insn : Instruction} :
    ∀ {ds : List Nat} {st st' : IBState},
      depBarrierLoop k level insn ds st = Except.ok st' →
      stripBarriers st'.result = stripBarriers st.result := by
  intro ds
  induction ds with
  | nil =>
    intro st st' h
    unfold depBarrierLoop at h
    injection h with h
    rw [h]
  | cons d rest ih =>
    intro st st' h
    unfold depBarrierLoop at h
    split at h
    · exact Except.noConfusion h
    · exact ih h
    · rw [ih h, issue_barrier_strip]

lemma preBarrierLoop_strip {k : Kernel} {level : Nat}
    {sched : List SchedItem} :
    ∀ {ws : List Nat} {st st' : IBState},
      preBarrierLoop k level sched ws st = Except.ok st' →
      stripBarriers st'.result = stripBarriers st.result := by
  intro ws
  induction ws with
  | nil =>
    intro st st' h
    unfold preBarrierLoop at h
    injection h with h
    rw [h]
  | cons w rest ih =>
    intro st st' h
    unfold preBarrierLoop at h
    split at h
    · exact Except.noConfusion h
    · rw [ih h, issue_barrier_strip]
    · exact ih h

lemma preStep_strip {k : Kernel} {level : Nat} {sched : List SchedItem}
    {ws : List Nat} {b : Bool} {st1 st2 : IBState}
    (h : (if b then Except.ok st1 else preBarrierLoop k level sched ws st1) =
      Except.ok st2) :
    stripBarriers st2.result = stripBarriers st1.result := by
  split at h
  · injection h with h
    rw [h]
  · exact preBarrierLoop_strip h

lemma gatherBody_eq :
    ∀ {lvl : Nat} {l b : List SchedItem} {lv : SchedItem}
      {r : List SchedItem},
      gatherBody lvl l = some (b, lv, r) → l = b ++ lv :: r := by
  intro lvl l
  induction l generalizing lvl with
  | nil =>
    intro b lv r h
    exact Option.noConfusion h
  | cons item rest ih =>
    intro b lv r h
    cases item with
    | LeaveLoop n =>
      simp only [gatherBody] at h
      by_cases hl : lvl = 0
      · rw [if_pos hl] at h
        simp only [Option.some.injEq, Prod.mk.injEq] at h
        obtain ⟨hb, hlv, hr⟩ := h
        subst hb
        subst hlv
        subst hr
        rfl
      · rw [if_neg hl] at h
        obtain ⟨x, hx, hfx⟩ := Option.map_eq_some'.mp h
        obtain ⟨bx, lvx, rx⟩ := x
        simp only [Prod.mk.injEq] at hfx
        obtain ⟨hb, hlv, hr⟩ := hfx
        subst hb
        subst hlv
        subst hr
        rw [ih hx]
        rfl
    | EnterLoop n =>
      simp only [gatherBody] at h
      obtain ⟨x, hx, hfx⟩ := Option.map_eq_some'.mp h
      obtain ⟨bx, lvx, rx⟩ := x
      simp only [Prod.mk.injEq] at hfx
      obtain ⟨hb, hlv, hr⟩ := hfx
      subst hb
      subst hlv
      subst hr
      rw [ih hx]
      rfl
    | RunInstruction n =>
      simp only [gatherBody] at h
      obtain ⟨x, hx, hfx⟩ := Option.map_eq_some'.mp h
      obtain ⟨bx, lvx, rx⟩ := x
      simp only [Prod.mk.injEq] at hfx
      obtain ⟨hb, hlv, hr⟩ := hfx
      subst hb
      subst hlv
      subst hr
      rw [ih hx]
      rfl
    | Barrier c =>
      simp only [gatherBody] at h
      obtain ⟨x, hx, hfx⟩ := Option.map_eq_some'.mp h
      obtain ⟨bx, lvx, rx⟩ := x
      simp only [Prod.mk.injEq] at hfx
      obtain ⟨hb, hlv, hr⟩ := hfx
      subst hb
      subst hlv
      subst hr
      rw [ih hx]
      rfl

lemma gatherBody_leave :
    ∀ {lvl : Nat} {l b : List SchedItem} {lv : SchedItem}
      {r : List SchedItem},
      gatherBody lvl l = some (b, lv, r) →
      ∃ n, lv = SchedItem.LeaveLoop n := by
  intro lvl l
  induction l generalizing lvl with
  | nil =>
    intro b lv r h
    exact Option.noConfusion h
  | cons item rest ih =>
    intro b lv r h
    cases item with
    | LeaveLoop n =>
      simp only [gatherBody] at h
      by_cases hl : lvl = 0
      · rw [if_pos hl] at h
        simp only [Option.some.injEq, Prod.mk.injEq] at h
        exact ⟨n, h.2.1.symm⟩
      · rw [if_neg hl] at h
        obtain ⟨x, hx, hfx⟩ := Option.map_eq_some'.mp h
        obtain ⟨bx, lvx, rx⟩ := x
        simp only [Prod.mk.injEq] at hfx
        obtain ⟨hb, hlv, hr⟩ := hfx
        subst hlv
        exact ih hx
    | EnterLoop n =>
      simp only [gatherBody] at h
      obtain ⟨x, hx, hfx⟩ := Option.map_eq_some'.mp h
      obtain ⟨bx, lvx, rx⟩ := x
      simp only [Prod.mk.injEq] at hfx
      obtain ⟨hb, hlv, hr⟩ := hfx
      subst hlv
      exact ih hx
    | RunInstruction n =>
      simp only [gatherBody] at h
      obtain ⟨x, hx, hfx⟩ := Option.map_eq_some'.mp h
      obtain ⟨bx, lvx, rx⟩ := x
      simp only [Prod.mk.injEq] at hfx
      obtain ⟨hb, hlv, hr⟩ := hfx
      subst hlv
      exact ih hx
    | Barrier c =>
      simp only [gatherBody] at h
      obtain ⟨x, hx, hfx⟩ := Option.map_eq_some'.mp h
      obtain ⟨bx, lvx, rx⟩ := x
      simp only [Prod.mk.injEq] at hfx
      obtain ⟨hb, hlv, hr⟩ := hfx
      subst hlv
      exact ih hx

set_option maxHeartbeats 1000000 in
lemma ibBody_strip (k : Kernel)
    (recur : List SchedItem → Nat → List SchedItem → IBState →
      Except Unit IBState)
    (IH : ∀ sched lvl items st st', recur sched lvl items st = Except.ok st' →
      stripBarriers st'.result = stripBarriers st.result ++ items) :
    ∀ sched lvl items st st',
      ibBody k recur sched lvl items st = Except.ok st' →
      stripBarriers st'.result = stripBarriers st.result ++ items := by
  intro sched lvl items st st' h
  cases items with
  | nil =>
    simp only [ibBody] at h
    injection h with h
    rw [h]
    simp
  | cons item rest =>
    cases item with
    | EnterLoop iname =>
      simp only [ibBody] at h
      split at h
      · exact Except.noConfusion h
      · rename_i interior leaveItem rest2 hg
        split at h
        · exact Except.noConfusion h
        · rename_i sub hsub
          split at h
          · exact Except.noConfusion h
          · rename_i odep hod
            split at h
            · exact Except.noConfusion h
            · rename_i st2 hst2
              obtain ⟨n, hlv⟩ := gatherBody_leave hg
              subst hlv
              have hrest := gatherBody_eq hg
              have hsubstrip := IH _ _ _ _ _ hsub
              have hfin := IH _ _ _ _ _ h
              simp only [stripBarriers_nil, List.nil_append] at hsubstrip
              have hst2strip : stripBarriers st2.result =
                  stripBarriers st.result := by
                cases odep with
                | none =>
                  rw [preStep_strip hst2]
                | some dep =>
                  rw [preStep_strip hst2, issue_barrier_strip]
              rw [hfin, stripBarriers_append, stripBarriers_append,
                stripBarriers_append, hst2strip, hsubstrip,
                stripBarriers_enter, stripBarriers_leave, hrest]
              simp
    | LeaveLoop n =>
      simp only [ibBody] at h
      exact Except.noConfusion h
    | RunInstruction iid =>
      simp only [ibBody] at h
      split at h
      · exact Except.noConfusion h
      · rename_i st1 hst1
        split at h
        · split at h
          · exact Except.noConfusion h
          · rename_i odep hod
            have hfin := IH _ _ _ _ _ h
            have hst1strip := depBarrierLoop_strip hst1
            have hst2strip : stripBarriers
                (match odep with
                  | some dep => issue_barrier lvl true (some dep) st1
                  | none => st1).result = stripBarriers st.result := by
              cases odep with
              | none => rw [hst1strip]
              | some dep => rw [issue_barrier_strip, hst1strip]
            rw [hfin, stripBarriers_append, hst2strip, stripBarriers_run]
            simp
        · have hfin := IH _ _ _ _ _ h
          have hst1strip := depBarrierLoop_strip hst1
          rw [hfin, stripBarriers_append, hst1strip, stripBarriers_run]
          simp
    | Barrier c =>
      simp only [ibBody] at h
      exact Except.noConfusion h

lemma ibGo_strip (k : Kernel) :
    ∀ (fuel : Nat) (sched : List SchedItem) (lvl : Nat)
      (items : List SchedItem) (st st' : IBState),
      ibGo k fuel sched lvl items st = Except.ok st' →
      stripBarriers st'.result = stripBarriers st.result ++ items := by
  intro fuel
  induction fuel with
  | zero =>
    intro sched lvl items st st' h
    simp only [ibGo] at h
    exact Except.noConfusion h
  | succ n IHf =>
    intro sched lvl items st st' h
    simp only [ibGo] at h
    exact ibBody_strip k _ (fun a b c d e hh => IHf a b c d e hh)
      sched lvl items st st' h

/-- C10: barrier insertion is purely additive — deleting the `Barrier`
items of the returned schedule gives back exactly the input schedule. -/
theorem C10_additive (k : Kernel) (sched : List SchedItem) (level : Nat)
    (res : List SchedItem) (w : List Nat)
    (h : insert_barriers k sched level = Except.ok (res, w)) :
    stripBarriers res = sched := by
  unfold insert_barriers at h
  split at h
  · exact Except.noConfusion h
  · rename_i st heq
    injection h with h
    have h2 := congrArg Prod.fst h
    simp only at h2
    have := ibGo_strip k _ _ _ _ _ _ heq
    rw [h2] at this
    simpa using this

/-- Witness for C10: on a schedule where a dependency barrier is actually
inserted, stripping barriers returns the input. -/
theorem C10_additive_witness :
    stripBarriers [SchedItem.RunInstruction 0,
      SchedItem.Barrier (some (false, 5)), SchedItem.RunInstruction 1] =
      [SchedItem.RunInstruction 0, SchedItem.RunInstruction 1] :=
  C10_additive
    { instructions := [⟨0, [], [], 5, [], []⟩, ⟨1, [0], [], 6, [5], []⟩],
      local_vars := [5], parallel_inames := [], breakable_inames := [],
      lowest_priority_inames := [], loop_nest_map := [] }
    [SchedItem.RunInstruction 0, SchedItem.RunInstruction 1] 0
    [SchedItem.RunInstruction 0, SchedItem.Barrier (some (false, 5)),
      SchedItem.RunInstruction 1] [] (by decide)


/-- C7 counterexample: with source = target = an instruction that both
reads and writes the same locally-shared variable, the hazard check does
not return `None`: the unordered check flags a self read/write hazard and
the ordered check trips the dependency assertion. -/
theorem C7_counterexample :
    get_barrier_needing_dependency KselfRW IselfRW IselfRW true =
      Except.ok (some ⟨IselfRW, IselfRW, 1⟩) ∧
    get_barrier_needing_dependency KselfRW IselfRW IselfRW false =
      Except.error () := by
  constructor <;> decide

/-- C7 (amended): a self-pair (source = target) is never flagged as a
write-after-write hazard, and whenever the instruction does not both
read and write the same locally-shared variable, the self-call returns
no hazard (`None`) for either value of `unordered`. -/
theorem C7_self_hazard (k : Kernel) (i : Instruction) (unordered : Bool)
    (h : ¬(i.assignee ∈ k.local_vars ∧ i.assignee ∈ i.read_vars)) :
    get_barrier_needing_dependency k i i unordered = Except.ok none := by
  unfold get_barrier_needing_dependency
  by_cases hA : i.assignee ∈ k.local_vars
  · have hread : i.assignee ∉ i.read_vars := fun hr => h ⟨hA, hr⟩
    have hc : k.local_vars.contains i.assignee = true := by
      simpa [List.elem_iff] using hA
    simp only [hc, if_true]
    have hraw : (i.read_vars.filter
        (fun v => k.local_vars.contains v)).filter
        (fun v => ([i.assignee]).contains v) = [] := by
      rw [List.filter_eq_nil_iff]
      intro a ha hcont
      rw [List.mem_filter] at ha
      have : a = i.assignee := by simpa [List.elem_iff] using hcont
      exact hread (this ▸ ha.1)
    have hwar : ([i.assignee]).filter
        (fun v => (i.read_vars.filter
          (fun v2 => k.local_vars.contains v2)).contains v) = [] := by
      rw [List.filter_eq_nil_iff]
      intro a ha hcont
      rw [List.mem_singleton] at ha
      subst ha
      rw [List.elem_iff, List.mem_filter] at hcont
      exact hread hcont.1
    rw [hraw, hwar]
    simp
  · have hc : k.local_vars.contains i.assignee = false := by
      simp [List.elem_iff]
      exact hA
    simp [hc, hA]

/-- Witness for the amended C7 at a concrete instruction that writes a
shared variable but does not read it. -/
theorem C7_self_hazard_witness :
    get_barrier_needing_dependency
      { instructions := [⟨4, [], [], 2, [3], []⟩], local_vars := [2, 3],
        parallel_inames := [], breakable_inames := [],
        lowest_priority_inames := [], loop_nest_map := [] }
      ⟨4, [], [], 2, [3], []⟩ ⟨4, [], [], 2, [3], []⟩ true =
      Except.ok none :=
  C7_self_hazard
    { instructions := [⟨4, [], [], 2, [3], []⟩], local_vars := [2, 3],
      parallel_inames := [], breakable_inames := [],
      lowest_priority_inames := [], loop_nest_map := [] }
    ⟨4, [], [], 2, [3], []⟩ true (by decide)

/-! ### Pre-barrier discipline (C8) -/


lemma depthAfter_append (a b : List SchedItem) (d : Nat) :
    depthAfter (a ++ b) d = depthAfter b (depthAfter a d) := by
  unfold depthAfter
  exact List.foldl_append _ _ a b

@[simp] lemma depthAfter_nil (d : Nat) : depthAfter [] d = d := rfl

@[simp] lemma depthAfter_cons (item : SchedItem) (r : List SchedItem)
    (d : Nat) : depthAfter (item :: r) d = depthAfter r (stepDepth d item) :=
  rfl

@[simp] lemma tbc_cons_barrier_zero (c : Option (Bool × Nat))
    (r : List SchedItem) :
    topBarrierComments (SchedItem.Barrier c :: r) 0 =
      c :: topBarrierComments r 0 := rfl

@[simp] lemma tbc_cons_barrier_succ (c : Option (Bool × Nat))
    (r : List SchedItem) (d : Nat) :
    topBarrierComments (SchedItem.Barrier c :: r) (d + 1) =
      topBarrierComments r (d + 1) := rfl

@[simp] lemma tbc_cons_enter (n : Nat) (r : List SchedItem) (d : Nat) :
    topBarrierComments (SchedItem.EnterLoop n :: r) d =
      topBarrierComments r (d + 1) := rfl

@[simp] lemma tbc_cons_leave (n : Nat) (r : List SchedItem) (d : Nat) :
    topBarrierComments (SchedItem.LeaveLoop n :: r) d =
      topBarrierComments r (d - 1) := rfl

@[simp] lemma tbc_cons_run (n : Nat) (r : List SchedItem) (d : Nat) :
    topBarrierComments (SchedItem.RunInstruction n :: r) d =
      topBarrierComments r d := rfl

lemma topBarrierComments_append (a b : List SchedItem) (d : Nat) :
    topBarrierComments (a ++ b) d =
      topBarrierComments a d ++ topBarrierComments b (depthAfter a d) := by
  induction a generalizing d with
  | nil => rfl
  | cons item r ih =>
    cases item with
    | Barrier c =>
      cases d with
      | zero => simp [ih, stepDepth]
      | succ d2 => simp [ih, stepDepth]
    | EnterLoop n => simp [ih, stepDepth]
    | LeaveLoop n => simp [ih, stepDepth]
    | RunInstruction n => simp [ih, stepDepth]


lemma DeepSafe_nil : DeepSafe [] := by
  intro d hd
  exact ⟨rfl, rfl⟩

lemma DeepSafe_append {a b : List SchedItem}
    (ha : DeepSafe a) (hb : DeepSafe b) : DeepSafe (a ++ b) := by
  intro d hd
  rw [depthAfter_append, topBarrierComments_append, (ha d hd).1,
    (ha d hd).2, (hb d hd).1, (hb d hd).2]
  exact ⟨rfl, rfl⟩

lemma DeepSafe_run (i : Nat) : DeepSafe [SchedItem.RunInstruction i] := by
  intro d hd
  exact ⟨rfl, by cases d with | zero => omega | succ d2 => rfl⟩

lemma DeepSafe_barrier (c : Option (Bool × Nat)) :
    DeepSafe [SchedItem.Barrier c] := by
  intro d hd
  cases d with
  | zero => omega
  | succ d2 => exact ⟨rfl, rfl⟩

lemma block_neutral {sub : List SchedItem} (hsub : DeepSafe sub)
    (iname n : Nat) :
    ∀ d : Nat,
      depthAfter ([SchedItem.EnterLoop iname] ++ sub ++
        [SchedItem.LeaveLoop n]) d = d ∧
      topBarrierComments ([SchedItem.EnterLoop iname] ++ sub ++
        [SchedItem.LeaveLoop n]) d = [] := by
  intro d
  have h1 : depthAfter [SchedItem.EnterLoop iname] d = d + 1 := rfl
  constructor
  · rw [depthAfter_append, depthAfter_append, h1,
      (hsub (d + 1) (by omega)).1]
    show d + 1 - 1 = d
    omega
  · rw [topBarrierComments_append, topBarrierComments_append]
    have h2 : topBarrierComments [SchedItem.EnterLoop iname] d = [] := by
      cases d with | zero => rfl | succ d2 => rfl
    rw [h2, h1, (hsub (d + 1) (by omega)).2, depthAfter_append, h1,
      (hsub (d + 1) (by omega)).1]
    have h3 : topBarrierComments [SchedItem.LeaveLoop n] (d + 1) = [] := rfl
    rw [h3]
    rfl

lemma DeepSafe_block {sub : List SchedItem} (hsub : DeepSafe sub)
    (iname n : Nat) :
    DeepSafe ([SchedItem.EnterLoop iname] ++ sub ++
      [SchedItem.LeaveLoop n]) :=
  fun d _ => block_neutral hsub iname n d

lemma run_neutral (iid : Nat) :
    ∀ d : Nat, depthAfter [SchedItem.RunInstruction iid] d = d ∧
      topBarrierComments [SchedItem.RunInstruction iid] d = [] := by
  intro d
  exact ⟨rfl, rfl⟩

lemma issue_barrier_eq_self_or (level : Nat) (is_pre : Bool)
    (dep : Option BarrierDep) (st : IBState) :
    issue_barrier level is_pre dep st = st ∨
    (issue_barrier level is_pre dep st =
      { result := st.result ++
          [SchedItem.Barrier (dep.map (fun d => (is_pre, d.var)))],
        owed := [], had_barrier := true } ∧
      (is_pre = true → st.had_barrier = false ∧ level ≠ 0)) := by
  unfold issue_barrier
  split
  · exact Or.inl rfl
  · split
    · exact Or.inl rfl
    · rename_i h1 h2
      refine Or.inr ⟨rfl, ?_⟩
      intro hp
      subst hp
      simp at h2
      exact h2


lemma tbc_singleton_barrier (c : Option (Bool × Nat)) (d : Nat) :
    topBarrierComments [SchedItem.Barrier c] d =
      if d = 0 then [c] else [] := by
  cases d with
  | zero => rfl
  | succ d2 => rfl

lemma isPreComment_map_false (dep : Option BarrierDep) :
    isPreComment (dep.map (fun d => (false, d.var))) = false := by
  cases dep with
  | none => rfl
  | some d => rfl

lemma isPreComment_map_pre {is_pre : Bool} {dep : Option BarrierDep}
    (h : isPreComment (dep.map (fun d => (is_pre, d.var))) = true) :
    is_pre = true := by
  cases dep with
  | none => exact Bool.noConfusion h
  | some d =>
    cases is_pre with
    | true => rfl
    | false => exact Bool.noConfusion h

lemma preInv_append_barrier (level : Nat) (c : Option (Bool × Nat))
    (st : IBState) (h : PreBarrierInv level st)
    (hc_pre : isPreComment c = true → topBarrierComments st.result 0 = [])
    (hc_lvl : level = 0 → isPreComment c = false) :
    PreBarrierInv level
      { result := st.result ++ [SchedItem.Barrier c], owed := [],
        had_barrier := true } := by
  obtain ⟨hd, hhad, hfirst, hlvl0⟩ := h
  have htb : topBarrierComments (st.result ++ [SchedItem.Barrier c]) 0 =
      topBarrierComments st.result 0 ++ [c] := by
    rw [topBarrierComments_append, hd, tbc_singleton_barrier]
    rfl
  refine ⟨?_, ?_, ?_, ?_⟩
  · show depthAfter (st.result ++ [SchedItem.Barrier c]) 0 = 0
    rw [depthAfter_append, hd]
    rfl
  · show true = true ↔
      topBarrierComments (st.result ++ [SchedItem.Barrier c]) 0 ≠ []
    rw [htb]
    simp
  · show ∀ j c2,
      (topBarrierComments (st.result ++ [SchedItem.Barrier c]) 0)[j]? =
        some c2 → isPreComment c2 = true → j = 0
    intro j c2 hj hp
    rw [htb] at hj
    rcases getElem?_append_sing _ _ _ _ hj with ⟨hlt, hold⟩ | ⟨hlen, hcc⟩
    · exact hfirst j c2 hold hp
    · subst hlen
      rw [hc_pre (hcc ▸ hp)]
      rfl
  · intro h0 c2 hc2
    show isPreComment c2 = false
    have hc3 : c2 ∈ topBarrierComments
        (st.result ++ [SchedItem.Barrier c]) 0 := hc2
    rw [htb, List.mem_append, List.mem_singleton] at hc3
    rcases hc3 with hc2 | hc2
    · exact hlvl0 h0 c2 hc2
    · subst hc2
      exact hc_lvl h0

lemma issue_barrier_preInv (level : Nat) (is_pre : Bool)
    (dep : Option BarrierDep) (st : IBState)
    (h : PreBarrierInv level st) :
    PreBarrierInv level (issue_barrier level is_pre dep st) := by
  rcases issue_barrier_eq_self_or level is_pre dep st with heq | ⟨heq, hpre⟩
  · rw [heq]
    exact h
  · rw [heq]
    refine preInv_append_barrier level _ st h ?_ ?_
    · intro hp
      have hip := isPreComment_map_pre hp
      have hhb := (hpre hip).1
      by_contra hne
      have := h.2.1.mpr hne
      rw [hhb] at this
      exact Bool.noConfusion this
    · intro h0
      cases hip : is_pre with
      | false => exact isPreComment_map_false dep
      | true => exact absurd h0 (hpre hip).2

lemma preInv_append_neutral (level : Nat) (st : IBState)
    (B : List SchedItem) (owed2 : List Nat)
    (h : PreBarrierInv level st)
    (hB : ∀ d : Nat, depthAfter B d = d ∧ topBarrierComments B d = []) :
    PreBarrierInv level
      { result := st.result ++ B, owed := owed2,
        had_barrier := st.had_barrier } := by
  obtain ⟨hd, hhad, hfirst, hlvl0⟩ := h
  have htb : topBarrierComments (st.result ++ B) 0 =
      topBarrierComments st.result 0 := by
    rw [topBarrierComments_append, (hB (depthAfter st.result 0)).2]
    simp
  refine ⟨?_, ?_, ?_, ?_⟩
  · show depthAfter (st.result ++ B) 0 = 0
    rw [depthAfter_append, hd, (hB 0).1]
  · show st.had_barrier = true ↔
      topBarrierComments (st.result ++ B) 0 ≠ []
    rw [htb]
    exact hhad
  · show ∀ j c,
      (topBarrierComments (st.result ++ B) 0)[j]? = some c →
        isPreComment c = true → j = 0
    rw [htb]
    exact hfirst
  · intro h0
    show ∀ c ∈ topBarrierComments (st.result ++ B) 0, isPreComment c = false
    rw [htb]
    exact hlvl0 h0

lemma issue_barrier_deepSafe (level : Nat) (is_pre : Bool)
    (dep : Option BarrierDep) (st : IBState)
    (h : DeepSafe st.result) :
    DeepSafe (issue_barrier level is_pre dep st).result := by
  rcases issue_barrier_eq_self_or level is_pre dep st with heq | ⟨heq, _⟩
  · rw [heq]
    exact h
  · rw [heq]
    exact DeepSafe_append h (DeepSafe_barrier _)

lemma depBarrierLoop_deepSafe {k : Kernel} {level : Nat}
    {insn : Instruction} :
    ∀ {ds : List Nat} {st st' : IBState},
      depBarrierLoop k level insn ds st = Except.ok st' →
      DeepSafe st.result → DeepSafe st'.result := by
  intro ds
  induction ds with
  | nil =>
    intro st st' h hs
    unfold depBarrierLoop at h
    injection h with h
    rw [← h]
    exact hs
  | cons d rest ih =>
    intro st st' h hs
    unfold depBarrierLoop at h
    split at h
    · exact Except.noConfusion h
    · exact ih h hs
    · exact ih h (issue_barrier_deepSafe _ _ _ _ hs)

lemma preBarrierLoop_deepSafe {k : Kernel} {level : Nat}
    {sched : List SchedItem} :
    ∀ {ws : List Nat} {st st' : IBState},
      preBarrierLoop k level sched ws st = Except.ok st' →
      DeepSafe st.result → DeepSafe st'.result := by
  intro ws
  induction ws with
  | nil =>
    intro st st' h hs
    unfold preBarrierLoop at h
    injection h with h
    rw [← h]
    exact hs
  | cons w rest ih =>
    intro st st' h hs
    unfold preBarrierLoop at h
    split at h
    · exact Except.noConfusion h
    · exact ih h (issue_barrier_deepSafe _ _ _ _ hs)
    · exact ih h hs

lemma preStep_deepSafe {k : Kernel} {level : Nat} {sched : List SchedItem}
    {ws : List Nat} {b : Bool} {st1 st2 : IBState}
    (h : (if b then Except.ok st1 else preBarrierLoop k level sched ws st1) =
      Except.ok st2)
    (hs : DeepSafe st1.result) : DeepSafe st2.result := by
  split at h
  · injection h with h
    rw [← h]
    exact hs
  · exact preBarrierLoop_deepSafe h hs

lemma depBarrierLoop_preInv {k : Kernel} {level : Nat}
    {insn : Instruction} :
    ∀ {ds : List Nat} {st st' : IBState},
      depBarrierLoop k level insn ds st = Except.ok st' →
      PreBarrierInv level st → PreBarrierInv level st' := by
  intro ds
  induction ds with
  | nil =>
    intro st st' h hs
    unfold depBarrierLoop at h
    injection h with h
    rw [← h]
    exact hs
  | cons d rest ih =>
    intro st st' h hs
    unfold depBarrierLoop at h
    split at h
    · exact Except.noConfusion h
    · exact ih h hs
    · exact ih h (issue_barrier_preInv _ _ _ _ hs)

lemma preBarrierLoop_preInv {k : Kernel} {level : Nat}
    {sched : List SchedItem} :
    ∀ {ws : List Nat} {st st' : IBState},
      preBarrierLoop k level sched ws st = Except.ok st' →
      PreBarrierInv level st → PreBarrierInv level st' := by
  intro ws
  induction ws with
  | nil =>
    intro st st' h hs
    unfold preBarrierLoop at h
    injection h with h
    rw [← h]
    exact hs
  | cons w rest ih =>
    intro st st' h hs
    unfold preBarrierLoop at h
    split at h
    · exact Except.noConfusion h
    · exact ih h (issue_barrier_preInv _ _ _ _ hs)
    · exact ih h hs

lemma preStep_preInv {k : Kernel} {level : Nat} {sched : List SchedItem}
    {ws : List Nat} {b : Bool} {st1 st2 : IBState}
    (h : (if b then Except.ok st1 else preBarrierLoop k level sched ws st1) =
      Except.ok st2)
    (hs : PreBarrierInv level st1) : PreBarrierInv level st2 := by
  split at h
  · injection h with h
    rw [← h]
    exact hs
  · exact preBarrierLoop_preInv h hs

lemma ibBody_deepSafe (k : Kernel)
    (recur : List SchedItem → Nat → List SchedItem → IBState →
      Except Unit IBState)
    (IH : ∀ sched lvl items st st', recur sched lvl items st = Except.ok st' →
      DeepSafe st.result → DeepSafe st'.result) :
    ∀ sched lvl items st st',
      ibBody k recur sched lvl items st = Except.ok st' →
      DeepSafe st.result → DeepSafe st'.result := by
  intro sched lvl items st st' h hs
  cases items with
  | nil =>
    simp only [ibBody] at h
    injection h with h
    rw [← h]
    exact hs
  | cons item rest =>
    cases item with
    | EnterLoop iname =>
      simp only [ibBody] at h
      split at h
      · exact Except.noConfusion h
      · rename_i interior leaveItem rest2 hg
        split at h
        · exact Except.noConfusion h
        · rename_i sub hsub
          split at h
          · exact Except.noConfusion h
          · rename_i odep hod
            split at h
            · exact Except.noConfusion h
            · rename_i st2 hst2
              obtain ⟨n, hlv⟩ := gatherBody_leave hg
              subst hlv
              have hsubsafe : DeepSafe sub.result :=
                IH _ _ _ _ _ hsub DeepSafe_nil
              have hst2safe : DeepSafe st2.result := by
                refine preStep_deepSafe hst2 ?_
                cases odep with
                | none => exact hs
                | some dep => exact issue_barrier_deepSafe _ _ _ _ hs
              have hre : st2.result ++ [SchedItem.EnterLoop iname]
                  ++ sub.result ++ [SchedItem.LeaveLoop n] =
                  st2.result ++ ([SchedItem.EnterLoop iname] ++ sub.result
                    ++ [SchedItem.LeaveLoop n]) := by
                simp [List.append_assoc]
              refine IH _ _ _ _ _ h ?_
              show DeepSafe (st2.result ++ [SchedItem.EnterLoop iname]
                ++ sub.result ++ [SchedItem.LeaveLoop n])
              rw [hre]
              exact DeepSafe_append hst2safe (DeepSafe_block hsubsafe iname n)
    | LeaveLoop n =>
      simp only [ibBody] at h
      exact Except.noConfusion h
    | RunInstruction iid =>
      simp only [ibBody] at h
      split at h
      · exact Except.noConfusion h
      · rename_i st1 hst1
        have hst1safe : DeepSafe st1.result := depBarrierLoop_deepSafe hst1 hs
        split at h
        · split at h
          · exact Except.noConfusion h
          · rename_i odep hod
            have hst2safe : DeepSafe (match odep with
                | some dep => issue_barrier lvl true (some dep) st1
                | none => st1).result := by
              cases odep with
              | none => exact hst1safe
              | some dep => exact issue_barrier_deepSafe _ _ _ _ hst1safe
            refine IH _ _ _ _ _ h ?_
            show DeepSafe ((match odep with
              | some dep => issue_barrier lvl true (some dep) st1
              | none => st1).result ++ [SchedItem.RunInstruction iid])
            exact DeepSafe_append hst2safe (DeepSafe_run iid)
        · refine IH _ _ _ _ _ h ?_
          show DeepSafe (st1.result ++ [SchedItem.RunInstruction iid])
          exact DeepSafe_append hst1safe (DeepSafe_run iid)
    | Barrier c =>
      simp only [ibBody] at h
      exact Except.noConfusion h

lemma ibGo_deepSafe (k : Kernel) :
    ∀ (fuel : Nat) (sched : List SchedItem) (lvl : Nat)
      (items : List SchedItem) (st st' : IBState),
      ibGo k fuel sched lvl items st = Except.ok st' →
      DeepSafe st.result → DeepSafe st'.result := by
  intro fuel
  induction fuel with
  | zero =>
    intro sched lvl items st st' h hs
    simp only [ibGo] at h
    exact Except.noConfusion h
  | succ n IHf =>
    intro sched lvl items st st' h hs
    simp only [ibGo] at h
    exact ibBody_deepSafe k _ (fun a b c d e hh => IHf a b c d e hh)
      sched lvl items st st' h hs

lemma ibBody_preInv (k : Kernel)
    (recur : List SchedItem → Nat → List SchedItem → IBState →
      Except Unit IBState)
    (IHd : ∀ sched lvl items st st', recur sched lvl items st = Except.ok st' →
      DeepSafe st.result → DeepSafe st'.result)
    (IH : ∀ sched lvl items st st', recur sched lvl items st = Except.ok st' →
      PreBarrierInv lvl st → PreBarrierInv lvl st') :
    ∀ sched lvl items st st',
      ibBody k recur sched lvl items st = Except.ok st' →
      PreBarrierInv lvl st → PreBarrierInv lvl st' := by
  intro sched lvl items st st' h hs
  cases items with
  | nil =>
    simp only [ibBody] at h
    injection h with h
    rw [← h]
    exact hs
  | cons item rest =>
    cases item with
    | EnterLoop iname =>
      simp only [ibBody] at h
      split at h
      · exact Except.noConfusion h
      · rename_i interior leaveItem rest2 hg
        split at h
        · exact Except.noConfusion h
        · rename_i sub hsub
          split at h
          · exact Except.noConfusion h
          · rename_i odep hod
            split at h
            · exact Except.noConfusion h
            · rename_i st2 hst2
              obtain ⟨n, hlv⟩ := gatherBody_leave hg
              subst hlv
              have hsubsafe : DeepSafe sub.result :=
                IHd _ _ _ _ _ hsub DeepSafe_nil
              have hst2inv : PreBarrierInv lvl st2 := by
                refine preStep_preInv hst2 ?_
                cases odep with
                | none => exact hs
                | some dep => exact issue_barrier_preInv _ _ _ _ hs
              have hre : st2.result ++ [SchedItem.EnterLoop iname]
                  ++ sub.result ++ [SchedItem.LeaveLoop n] =
                  st2.result ++ ([SchedItem.EnterLoop iname] ++ sub.result
                    ++ [SchedItem.LeaveLoop n]) := by
                simp [List.append_assoc]
              have hnext := preInv_append_neutral lvl st2
                ([SchedItem.EnterLoop iname] ++ sub.result
                  ++ [SchedItem.LeaveLoop n])
                (unionOwed st2.owed sub.owed) hst2inv
                (block_neutral hsubsafe iname n)
              rw [← hre] at hnext
              exact IH _ _ _ _ _ h hnext
    | LeaveLoop n =>
      simp only [ibBody] at h
      exact Except.noConfusion h
    | RunInstruction iid =>
      simp only [ibBody] at h
      split at h
      · exact Except.noConfusion h
      · rename_i st1 hst1
        have hst1inv : PreBarrierInv lvl st1 := depBarrierLoop_preInv hst1 hs
        split at h
        · split at h
          · exact Except.noConfusion h
          · rename_i odep hod
            cases odep with
            | none =>
              exact IH _ _ _ _ _ h
                (preInv_append_neutral lvl st1
                  [SchedItem.RunInstruction iid] _ hst1inv (run_neutral iid))
            | some dep =>
              exact IH _ _ _ _ _ h
                (preInv_append_neutral lvl
                  (issue_barrier lvl true (some dep) st1)
                  [SchedItem.RunInstruction iid] _
                  (issue_barrier_preInv _ _ _ _ hst1inv) (run_neutral iid))
        · exact IH _ _ _ _ _ h
            (preInv_append_neutral lvl st1 [SchedItem.RunInstruction iid]
              st1.owed hst1inv (run_neutral iid))
    | Barrier c =>
      simp only [ibBody] at h
      exact Except.noConfusion h

lemma ibGo_preInv (k : Kernel) :
    ∀ (fuel : Nat) (sched : List SchedItem) (lvl : Nat)
      (items : List SchedItem) (st st' : IBState),
      ibGo k fuel sched lvl items st = Except.ok st' →
      PreBarrierInv lvl st → PreBarrierInv lvl st' := by
  intro fuel
  induction fuel with
  | zero =>
    intro sched lvl items st st' h hs
    simp only [ibGo] at h
    exact Except.noConfusion h
  | succ n IHf =>
    intro sched lvl items st st' h hs
    simp only [ibGo] at h
    exact ibBody_preInv k _ (fun a b c d e hh => ibGo_deepSafe k n a b c d e hh)
      (fun a b c d e hh => IHf a b c d e hh) sched lvl items st st' h hs

lemma PreBarrierInv_init (level : Nat) :
    PreBarrierInv level ⟨[], [], false⟩ := by
  refine ⟨rfl, ?_, ?_, ?_⟩
  · constructor
    · intro hf
      exact Bool.noConfusion hf
    · intro hne
      exact absurd rfl hne
  · intro j c hj
    simp [topBarrierComments] at hj
  · intro h0 c hc
    simp [topBarrierComments] at hc


/-- C8: pre-barrier discipline.  For any successful `insert_barriers`
call, among the barriers the call emits at its own nesting depth a
pre-barrier can only be the very first (so at most one pre-barrier is
emitted per loop, and never after the loop has already had a barrier);
and a level-0 call emits no pre-barrier at all. -/
theorem C8_pre_barrier_discipline (k : Kernel) (sched res : List SchedItem)
    (w : List Nat) (level : Nat)
    (h : insert_barriers k sched level = Except.ok (res, w)) :
    (∀ j c, (topBarrierComments res 0)[j]? = some c →
      isPreComment c = true → j = 0) ∧
    (level = 0 → ∀ c ∈ topBarrierComments res 0, isPreComment c = false) := by
  unfold insert_barriers at h
  split at h
  · exact Except.noConfusion h
  · rename_i st heq
    injection h with h
    have h2 := congrArg Prod.fst h
    simp only at h2
    have hinv := ibGo_preInv k _ _ _ _ _ _ heq (PreBarrierInv_init level)
    rw [← h2]
    exact ⟨hinv.2.2.1, hinv.2.2.2⟩

/-- Witness for C8 at the read-after-write kernel: the one top-level
barrier the level-0 pass emits is a dependency barrier, not a
pre-barrier. -/
theorem C8_pre_barrier_discipline_witness :
    isPreComment (some (false, 5)) = false :=
  (C8_pre_barrier_discipline KscRAW
    [SchedItem.RunInstruction 0, SchedItem.RunInstruction 1]
    [SchedItem.RunInstruction 0, SchedItem.Barrier (some (false, 5)),
      SchedItem.RunInstruction 1] [] 0 (by decide)).2 rfl
    (some (false, 5)) (by decide)

/-! ### Barrier soundness (C1) -/


lemma BarrierExt_refl (a : List SchedItem) : BarrierExt a a :=
  ⟨[], by simp, by simp⟩

lemma BarrierExt_trans {a b c : List SchedItem}
    (h1 : BarrierExt a b) (h2 : BarrierExt b c) : BarrierExt a c := by
  obtain ⟨t1, ht1, hb1⟩ := h1
  obtain ⟨t2, ht2, hb2⟩ := h2
  refine ⟨t1 ++ t2, by rw [ht2, ht1, List.append_assoc], ?_⟩
  intro x hx
  rcases List.mem_append.mp hx with hx | hx
  · exact hb1 x hx
  · exact hb2 x hx

lemma issue_barrier_ext (level : Nat) (is_pre : Bool)
    (dep : Option BarrierDep) (st : IBState) :
    BarrierExt st.result (issue_barrier level is_pre dep st).result := by
  rcases issue_barrier_eq_self_or level is_pre dep st with heq | ⟨heq, _⟩
  · rw [heq]
    exact BarrierExt_refl _
  · rw [heq]
    exact ⟨_, rfl, by intro x hx; rw [List.mem_singleton] at hx; subst hx; rfl⟩

lemma depBarrierLoop_ext {k : Kernel} {level : Nat} {insn : Instruction} :
    ∀ {ds : List Nat} {st st' : IBState},
      depBarrierLoop k level insn ds st = Except.ok st' →
      BarrierExt st.result st'.result := by
  intro ds
  induction ds with
  | nil =>
    intro st st' h
    unfold depBarrierLoop at h
    injection h with h
    rw [← h]
    exact BarrierExt_refl _
  | cons d rest ih =>
    intro st st' h
    unfold depBarrierLoop at h
    split at h
    · exact Except.noConfusion h
    · exact ih h
    · exact BarrierExt_trans (issue_barrier_ext _ _ _ _) (ih h)

lemma preBarrierLoop_ext {k : Kernel} {level : Nat}
    {sched : List SchedItem} :
    ∀ {ws : List Nat} {st st' : IBState},
      preBarrierLoop k level sched ws st = Except.ok st' →
      BarrierExt st.result st'.result := by
  intro ws
  induction ws with
  | nil =>
    intro st st' h
    unfold preBarrierLoop at h
    injection h with h
    rw [← h]
    exact BarrierExt_refl _
  | cons w rest ih =>
    intro st st' h
    unfold preBarrierLoop at h
    split at h
    · exact Except.noConfusion h
    · exact BarrierExt_trans (issue_barrier_ext _ _ _ _) (ih h)
    · exact ih h

lemma preStep_ext {k : Kernel} {level : Nat} {sched : List SchedItem}
    {ws : List Nat} {b : Bool} {st1 st2 : IBState}
    (h : (if b then Except.ok st1 else preBarrierLoop k level sched ws st1) =
      Except.ok st2) :
    BarrierExt st1.result st2.result := by
  split at h
  · injection h with h
    rw [← h]
    exact BarrierExt_refl _
  · exact preBarrierLoop_ext h

lemma getElem?_append_offset {α : Type} (x y : List α) (i : Nat) :
    (x ++ y)[x.length + i]? = y[i]? := by
  rw [List.getElem?_append_right (by omega)]
  congr 1
  omega

lemma getElem?_append_cases {α : Type} (A B : List α) (p : Nat) (x : α)
    (h : (A ++ B)[p]? = some x) :
    (p < A.length ∧ A[p]? = some x) ∨
    (∃ i, p = A.length + i ∧ B[i]? = some x) := by
  by_cases hp : p < A.length
  · exact Or.inl ⟨hp, by rwa [List.getElem?_append_left hp] at h⟩
  · push_neg at hp
    exact Or.inr ⟨p - A.length, by omega,
      by rwa [List.getElem?_append_right hp] at h⟩

lemma getElem?_some_lt {α : Type} {l : List α} {p : Nat} {x : α}
    (h : l[p]? = some x) : p < l.length := by
  by_contra hc
  push_neg at hc
  rw [List.getElem?_eq_none hc] at h
  exact Option.noConfusion h

lemma getElem?_append_of_some {α : Type} {l : List α} {p : Nat} {x : α}
    (t : List α) (h : l[p]? = some x) : (l ++ t)[p]? = some x := by
  rw [List.getElem?_append_left (getElem?_some_lt h)]
  exact h

lemma runsAt_of_ext {a b : List SchedItem} {p i : Nat}
    (hext : BarrierExt a b) (h : runsAt b p i) : runsAt a p i := by
  obtain ⟨t, ht, hbar⟩ := hext
  subst ht
  rcases getElem?_append_cases a t p _ h with ⟨_, h2⟩ | ⟨j, _, h2⟩
  · exact h2
  · have := hbar _ (List.getElem?_mem h2)
    exact Bool.noConfusion this

lemma runsAt_ext {a b : List SchedItem} {p i : Nat}
    (hext : BarrierExt a b) (h : runsAt a p i) : runsAt b p i := by
  obtain ⟨t, ht, _⟩ := hext
  subst ht
  exact getElem?_append_of_some t h

lemma hasBarrierAfter_append {a : List SchedItem} {p : Nat}
    (t : List SchedItem) (h : hasBarrierAfter a p) :
    hasBarrierAfter (a ++ t) p := by
  obtain ⟨m, c, hm, hb⟩ := h
  exact ⟨m, c, hm, getElem?_append_of_some t hb⟩

lemma barrierBetween_append {a : List SchedItem} {p q : Nat}
    (t : List SchedItem) (h : barrierBetween a p q) :
    barrierBetween (a ++ t) p q := by
  obtain ⟨m, c, hm1, hm2, hb⟩ := h
  exact ⟨m, c, hm1, hm2, getElem?_append_of_some t hb⟩

lemma PairSep_ext {sId tId : Nat} {a b : List SchedItem}
    (hext : BarrierExt a b) (h : PairSep sId tId a) : PairSep sId tId b := by
  intro p q hpq hp hq
  have hp2 := runsAt_of_ext hext hp
  have hq2 := runsAt_of_ext hext hq
  obtain ⟨t, ht, _⟩ := hext
  subst ht
  exact barrierBetween_append t (h p q hpq hp2 hq2)

lemma endsWithBarrier_append_barrier (l : List SchedItem)
    (c : Option (Bool × Nat)) :
    endsWithBarrier (l ++ [SchedItem.Barrier c]) = true := by
  unfold endsWithBarrier
  rw [List.getLast?_concat]

lemma issue_false_some_ends (level : Nat) (dep : BarrierDep)
    (st : IBState) :
    endsWithBarrier (issue_barrier level false (some dep) st).result =
      true := by
  unfold issue_barrier
  split
  · rename_i hend
    exact hend
  · split
    · rename_i hpre
      exact absurd hpre (by simp)
    · exact endsWithBarrier_append_barrier _ _

lemma issue_preserves_ends (level : Nat) (is_pre : Bool)
    (dep : Option BarrierDep) (st : IBState)
    (h : endsWithBarrier st.result = true) :
    endsWithBarrier (issue_barrier level is_pre dep st).result = true := by
  rcases issue_barrier_eq_self_or level is_pre dep st with heq | ⟨heq, _⟩
  · rw [heq]
    exact h
  · rw [heq]
    exact endsWithBarrier_append_barrier _ _

lemma depBarrierLoop_preserves_ends {k : Kernel} {level : Nat}
    {insn : Instruction} :
    ∀ {ds : List Nat} {st st' : IBState},
      depBarrierLoop k level insn ds st = Except.ok st' →
      endsWithBarrier st.result = true →
      endsWithBarrier st'.result = true := by
  intro ds
  induction ds with
  | nil =>
    intro st st' h hs
    unfold depBarrierLoop at h
    injection h with h
    rw [← h]
    exact hs
  | cons d rest ih =>
    intro st st' h hs
    unfold depBarrierLoop at h
    split at h
    · exact Except.noConfusion h
    · exact ih h hs
    · exact ih h (issue_preserves_ends _ _ _ _ hs)

lemma depBarrierLoop_hit_ends {k : Kernel} {level : Nat}
    {insn : Instruction} {dv : Nat} {dep : BarrierDep}
    (hg : get_barrier_needing_dependency k insn (idToInsn k dv) false =
      Except.ok (some dep)) :
    ∀ {ds : List Nat} {st st' : IBState}, dv ∈ ds →
      depBarrierLoop k level insn ds st = Except.ok st' →
      endsWithBarrier st'.result = true := by
  intro ds
  induction ds with
  | nil =>
    intro st st' hmem
    cases hmem
  | cons d rest ih =>
    intro st st' hmem h
    unfold depBarrierLoop at h
    rcases List.mem_cons.mp hmem with heqd | hmem2
    · subst heqd
      split at h
      · exact Except.noConfusion h
      · rename_i heq
        rw [hg] at heq
        injection heq with h2
        exact Option.noConfusion h2
      · exact depBarrierLoop_preserves_ends h (issue_false_some_ends _ _ _)
    · split at h
      · exact Except.noConfusion h
      · exact ih hmem2 h
      · exact depBarrierLoop_preserves_ends h (issue_false_some_ends _ _ _)

lemma preBarrierLoop_preserves_ends {k : Kernel} {level : Nat}
    {sched : List SchedItem} :
    ∀ {ws : List Nat} {st st' : IBState},
      preBarrierLoop k level sched ws st = Except.ok st' →
      endsWithBarrier st.result = true →
      endsWithBarrier st'.result = true := by
  intro ws
  induction ws with
  | nil =>
    intro st st' h hs
    unfold preBarrierLoop at h
    injection h with h
    rw [← h]
    exact hs
  | cons w rest ih =>
    intro st st' h hs
    unfold preBarrierLoop at h
    split at h
    · exact Except.noConfusion h
    · exact ih h (issue_preserves_ends _ _ _ _ hs)
    · exact ih h hs

lemma preStep_preserves_ends {k : Kernel} {level : Nat}
    {sched : List SchedItem} {ws : List Nat} {b : Bool} {st1 st2 : IBState}
    (h : (if b then Except.ok st1 else preBarrierLoop k level sched ws st1) =
      Except.ok st2)
    (hs : endsWithBarrier st1.result = true) :
    endsWithBarrier st2.result = true := by
  split at h
  · injection h with h
    rw [← h]
    exact hs
  · exact preBarrierLoop_preserves_ends h hs

lemma ends_barrier_after {l : List SchedItem} {p i : Nat}
    (hend : endsWithBarrier l = true) (hp : runsAt l p i) :
    hasBarrierAfter l p := by
  unfold endsWithBarrier at hend
  split at hend
  · rename_i c heq
    rw [List.getLast?_eq_getElem?] at heq
    have hplen := getElem?_some_lt hp
    have hpne : p ≠ l.length - 1 := by
      intro hcontra
      rw [← hcontra] at heq
      rw [runsAt] at hp
      rw [hp] at heq
      exact SchedItem.noConfusion (Option.some.inj heq)
    exact ⟨l.length - 1, c, by omega, heq⟩
  · exact Bool.noConfusion hend

lemma mem_addOwed (owed : List Nat) (i j : Nat) :
    j ∈ addOwed owed i ↔ j ∈ owed ∨ j = i := by
  unfold addOwed
  split
  · rename_i hc
    rw [List.elem_iff] at hc
    constructor
    · exact fun h => Or.inl h
    · rintro (h | h)
      · exact h
      · exact h ▸ hc
  · simp

lemma mem_unionOwed_left {a b : List Nat} {j : Nat} (h : j ∈ a) :
    j ∈ unionOwed a b := by
  unfold unionOwed
  exact List.mem_append.mpr (Or.inl h)

lemma mem_unionOwed_right {a b : List Nat} {j : Nat} (h : j ∈ b) :
    j ∈ unionOwed a b := by
  unfold unionOwed
  rw [List.mem_append]
  by_cases ha : j ∈ a
  · exact Or.inl ha
  · refine Or.inr (List.mem_filter.mpr ⟨h, ?_⟩)
    simp [List.elem_iff, ha]

lemma issue_OwedInv {sId : Nat} {level : Nat} {is_pre : Bool}
    {dep : Option BarrierDep} {st : IBState} (h : OwedInv sId st) :
    OwedInv sId (issue_barrier level is_pre dep st) := by
  rcases issue_barrier_eq_self_or level is_pre dep st with heq | ⟨heq, _⟩
  · rw [heq]
    exact h
  · rw [heq]
    intro p hp
    right
    rcases getElem?_append_cases _ _ _ _ hp with ⟨hlt, hold⟩ | ⟨j, hj, hB⟩
    · refine ⟨st.result.length, dep.map (fun d => (is_pre, d.var)), hlt, ?_⟩
      exact List.getElem?_concat_length st.result _
    · cases j with
      | zero =>
        rw [List.getElem?_cons_zero] at hB
        exact SchedItem.noConfusion (Option.some.inj hB)
      | succ j2 =>
        rw [List.getElem?_cons_succ] at hB
        simp at hB

lemma depBarrierLoop_OwedInv {sId : Nat} {k : Kernel} {level : Nat}
    {insn : Instruction} :
    ∀ {ds : List Nat} {st st' : IBState},
      depBarrierLoop k level insn ds st = Except.ok st' →
      OwedInv sId st → OwedInv sId st' := by
  intro ds
  induction ds with
  | nil =>
    intro st st' h hs
    unfold depBarrierLoop at h
    injection h with h
    rw [← h]
    exact hs
  | cons d rest ih =>
    intro st st' h hs
    unfold depBarrierLoop at h
    split at h
    · exact Except.noConfusion h
    · exact ih h hs
    · exact ih h (issue_OwedInv hs)

lemma preBarrierLoop_OwedInv {sId : Nat} {k : Kernel} {level : Nat}
    {sched : List SchedItem} :
    ∀ {ws : List Nat} {st st' : IBState},
      preBarrierLoop k level sched ws st = Except.ok st' →
      OwedInv sId st → OwedInv sId st' := by
  intro ws
  induction ws with
  | nil =>
    intro st st' h hs
    unfold preBarrierLoop at h
    injection h with h
    rw [← h]
    exact hs
  | cons w rest ih =>
    intro st st' h hs
    unfold preBarrierLoop at h
    split at h
    · exact Except.noConfusion h
    · exact ih h (issue_OwedInv hs)
    · exact ih h hs

lemma preStep_OwedInv {sId : Nat} {k : Kernel} {level : Nat}
    {sched : List SchedItem} {ws : List Nat} {b : Bool} {st1 st2 : IBState}
    (h : (if b then Except.ok st1 else preBarrierLoop k level sched ws st1) =
      Except.ok st2)
    (hs : OwedInv sId st1) : OwedInv sId st2 := by
  split at h
  · injection h with h
    rw [← h]
    exact hs
  · exact preBarrierLoop_OwedInv h hs

lemma find?_id_facts {k : Kernel} {i : Nat} {I : Instruction}
    (h : k.instructions.find? (fun insn => insn.id == i) = some I) :
    idToInsn k i = I ∧ I.id = i := by
  constructor
  · unfold idToInsn
    rw [h]
    rfl
  · have := List.find?_some h
    simpa using this

lemma gbnd_pair_some {k : Kernel} {sId : Nat} {S T : Instruction}
    (hST : S ≠ T) (hsid : S.id = sId)
    (hdep : sId ∈ T.insn_deps)
    (hw : S.assignee ∈ k.local_vars)
    (htouch : S.assignee ∈ T.read_vars ∨ T.assignee = S.assignee ∨
      (T.assignee ∈ k.local_vars ∧ T.assignee ∈ S.read_vars)) :
    ∃ d, get_barrier_needing_dependency k T S false =
      Except.ok (some d) := by
  have hcw : k.local_vars.contains S.assignee = true := by
    simpa [List.elem_iff] using hw
  have hcd : T.insn_deps.contains S.id = true := by
    rw [hsid]
    simpa [List.elem_iff] using hdep
  simp only [get_barrier_needing_dependency]
  split
  · rename_i v heq
    rw [if_pos (by simp [List.elem_iff, hsid, hdep])]
    exact ⟨⟨T, S, v⟩, rfl⟩
  · rename_i heqnone
    rw [if_neg hST]
    split
    · rename_i v heqw
      rw [if_pos (by simp [List.elem_iff, hsid, hdep])]
      exact ⟨⟨T, S, v⟩, rfl⟩
    · rename_i heqw
      exfalso
      rw [List.head?_eq_none_iff, List.append_eq_nil] at heqnone
      rw [List.head?_eq_none_iff] at heqw
      rcases htouch with hr | hteq | ⟨hTlv, hTread⟩
      · have hmem : S.assignee ∈ (T.read_vars.filter
            (fun v => k.local_vars.contains v)).filter
            (fun v => (if k.local_vars.contains S.assignee = true
              then [S.assignee] else []).contains v) := by
          refine List.mem_filter.mpr ⟨List.mem_filter.mpr ⟨hr, hcw⟩, ?_⟩
          rw [if_pos hcw]
          simp
        rw [heqnone.1] at hmem
        exact absurd hmem (List.not_mem_nil _)
      · have hcwT : k.local_vars.contains T.assignee = true := by
          rw [hteq]
          exact hcw
        have hmem : T.assignee ∈ (if k.local_vars.contains T.assignee = true
            then [T.assignee] else []).filter
            (fun v => (if k.local_vars.contains S.assignee = true
              then [S.assignee] else []).contains v) := by
          refine List.mem_filter.mpr ⟨?_, ?_⟩
          · rw [if_pos hcwT]
            simp
          · rw [if_pos hcw, hteq]
            simp
        rw [heqw] at hmem
        exact absurd hmem (List.not_mem_nil _)
      · have hcwT : k.local_vars.contains T.assignee = true := by
          simpa [List.elem_iff] using hTlv
        have hmem : T.assignee ∈ (if k.local_vars.contains T.assignee = true
            then [T.assignee] else []).filter
            (fun v => (S.read_vars.filter
              (fun v => k.local_vars.contains v)).contains v) := by
          refine List.mem_filter.mpr ⟨?_, ?_⟩
          · rw [if_pos hcwT]
            simp
          · simpa [List.elem_iff, List.mem_filter] using ⟨hTread, hTlv⟩
        rw [heqnone.2] at hmem
        exact absurd hmem (List.not_mem_nil _)

lemma gbdis_none_barrier_before {k : Kernel} {sId tId : Nat}
    {S T : Instruction}
    (hS : idToInsn k sId = S) (hT : idToInsn k tId = T)
    (hpair : ∃ d, get_barrier_needing_dependency k T S false =
      Except.ok (some d)) :
    ∀ (l : List SchedItem) (pos : Nat),
      get_barrier_dependent_in_schedule k sId l false = Except.ok none →
      l[pos]? = some (SchedItem.RunInstruction tId) →
      ∃ m c, m < pos ∧ l[m]? = some (SchedItem.Barrier c) := by
  intro l
  induction l with
  | nil =>
    intro pos h hp
    simp at hp
  | cons item rest ih =>
    intro pos h hp
    cases item with
    | RunInstruction tid =>
      simp only [get_barrier_dependent_in_schedule] at h
      split at h
      · exact Except.noConfusion h
      · injection h with h2
        exact Option.noConfusion h2
      · rename_i heq
        cases pos with
        | zero =>
          rw [List.getElem?_cons_zero] at hp
          have htid : tid = tId := by
            have := Option.some.inj hp
            injection this
          subst htid
          rw [hS, hT] at heq
          obtain ⟨d, hd⟩ := hpair
          rw [hd] at heq
          injection heq with h3
          exact Option.noConfusion h3
        | succ pos2 =>
          rw [List.getElem?_cons_succ] at hp
          obtain ⟨m, c, hm, hb⟩ := ih pos2 h hp
          exact ⟨m + 1, c, by omega, by rwa [List.getElem?_cons_succ]⟩
    | Barrier c =>
      cases pos with
      | zero =>
        rw [List.getElem?_cons_zero] at hp
        exact SchedItem.noConfusion (Option.some.inj hp)
      | succ pos2 =>
        exact ⟨0, c, by omega, List.getElem?_cons_zero ..⟩
    | EnterLoop n =>
      simp only [get_barrier_dependent_in_schedule] at h
      cases pos with
      | zero =>
        rw [List.getElem?_cons_zero] at hp
        exact SchedItem.noConfusion (Option.some.inj hp)
      | succ pos2 =>
        rw [List.getElem?_cons_succ] at hp
        obtain ⟨m, c, hm, hb⟩ := ih pos2 h hp
        exact ⟨m + 1, c, by omega, by rwa [List.getElem?_cons_succ]⟩
    | LeaveLoop n =>
      simp only [get_barrier_dependent_in_schedule] at h
      cases pos with
      | zero =>
        rw [List.getElem?_cons_zero] at hp
        exact SchedItem.noConfusion (Option.some.inj hp)
      | succ pos2 =>
        rw [List.getElem?_cons_succ] at hp
        obtain ⟨m, c, hm, hb⟩ := ih pos2 h hp
        exact ⟨m + 1, c, by omega, by rwa [List.getElem?_cons_succ]⟩

lemma firstOwedDep_none {k : Kernel} {sub : List SchedItem} :
    ∀ {ws : List Nat}, firstOwedDep k sub ws = Except.ok none →
      ∀ w ∈ ws, get_barrier_dependent_in_schedule k w sub false =
        Except.ok none := by
  intro ws
  induction ws with
  | nil =>
    intro h w hw
    cases hw
  | cons w0 rest ih =>
    intro h w hw
    unfold firstOwedDep at h
    split at h
    · exact Except.noConfusion h
    · injection h with h2
      exact Option.noConfusion h2
    · rename_i heq
      rcases List.mem_cons.mp hw with hww | hww
      · subst hww
        exact heq
      · exact ih h w hww

lemma block_shape (A sub : List SchedItem) (iname n : Nat) :
    A ++ [SchedItem.EnterLoop iname] ++ sub ++ [SchedItem.LeaveLoop n] =
    A ++ ([SchedItem.EnterLoop iname] ++ sub ++ [SchedItem.LeaveLoop n]) := by
  simp [List.append_assoc]

lemma block_pos_cases {A sub : List SchedItem} {iname n p : Nat}
    {x : SchedItem}
    (h : (A ++ [SchedItem.EnterLoop iname] ++ sub ++
      [SchedItem.LeaveLoop n])[p]? = some x) :
    (p < A.length ∧ A[p]? = some x) ∨
    (p = A.length ∧ x = SchedItem.EnterLoop iname) ∨
    (∃ i, i < sub.length ∧ p = A.length + 1 + i ∧ sub[i]? = some x) ∨
    (p = A.length + 1 + sub.length ∧ x = SchedItem.LeaveLoop n) := by
  rw [block_shape] at h
  rcases getElem?_append_cases _ _ _ _ h with ⟨hlt, hA⟩ | ⟨j, hj, hB⟩
  · exact Or.inl ⟨hlt, hA⟩
  · have hB2 : (SchedItem.EnterLoop iname ::
        (sub ++ [SchedItem.LeaveLoop n]))[j]? = some x := hB
    cases j with
    | zero =>
      rw [List.getElem?_cons_zero] at hB2
      exact Or.inr (Or.inl ⟨by omega, (Option.some.inj hB2).symm⟩)
    | succ j2 =>
      rw [List.getElem?_cons_succ] at hB2
      rcases getElem?_append_cases _ _ _ _ hB2 with ⟨hlt2, hsub⟩ |
        ⟨j3, hj3, hL⟩
      · exact Or.inr (Or.inr (Or.inl ⟨j2, hlt2, by omega, hsub⟩))
      · cases j3 with
        | zero =>
          rw [List.getElem?_cons_zero] at hL
          exact Or.inr (Or.inr (Or.inr ⟨by omega, (Option.some.inj hL).symm⟩))
        | succ j4 =>
          rw [List.getElem?_cons_succ] at hL
          simp at hL

lemma block_get_A {A sub : List SchedItem} {iname n : Nat} {m : Nat}
    {x : SchedItem} (h : A[m]? = some x) :
    (A ++ [SchedItem.EnterLoop iname] ++ sub ++
      [SchedItem.LeaveLoop n])[m]? = some x := by
  rw [block_shape]
  exact getElem?_append_of_some _ h

lemma block_get_sub {A sub : List SchedItem} {iname n : Nat} {i : Nat}
    {x : SchedItem} (h : sub[i]? = some x) :
    (A ++ [SchedItem.EnterLoop iname] ++ sub ++
      [SchedItem.LeaveLoop n])[A.length + 1 + i]? = some x := by
  rw [block_shape]
  have he : A.length + 1 + i = A.length + (1 + i) := by omega
  rw [he, getElem?_append_offset]
  show (SchedItem.EnterLoop iname ::
    (sub ++ [SchedItem.LeaveLoop n]))[1 + i]? = some x
  rw [show (1 + i) = i + 1 by omega, List.getElem?_cons_succ]
  exact getElem?_append_of_some _ h

lemma issue_owed_sub {level : Nat} {is_pre : Bool} {dep : Option BarrierDep}
    {st : IBState} {j : Nat}
    (h : j ∈ (issue_barrier level is_pre dep st).owed) : j ∈ st.owed := by
  rcases issue_barrier_eq_self_or level is_pre dep st with heq | ⟨heq, _⟩
  · rwa [heq] at h
  · rw [heq] at h
    exact absurd h (List.not_mem_nil j)

lemma depBarrierLoop_owed_sub {k : Kernel} {level : Nat}
    {insn : Instruction} :
    ∀ {ds : List Nat} {st st' : IBState},
      depBarrierLoop k level insn ds st = Except.ok st' →
      ∀ {j : Nat}, j ∈ st'.owed → j ∈ st.owed := by
  intro ds
  induction ds with
  | nil =>
    intro st st' h j hj
    unfold depBarrierLoop at h
    injection h with h
    rwa [← h] at hj
  | cons d rest ih =>
    intro st st' h j hj
    unfold depBarrierLoop at h
    split at h
    · exact Except.noConfusion h
    · exact ih h hj
    · exact issue_owed_sub (ih h hj)

lemma preBarrierLoop_owed_sub {k : Kernel} {level : Nat}
    {sched : List SchedItem} :
    ∀ {ws : List Nat} {st st' : IBState},
      preBarrierLoop k level sched ws st = Except.ok st' →
      ∀ {j : Nat}, j ∈ st'.owed → j ∈ st.owed := by
  intro ws
  induction ws with
  | nil =>
    intro st st' h j hj
    unfold preBarrierLoop at h
    injection h with h
    rwa [← h] at hj
  | cons w rest ih =>
    intro st st' h j hj
    unfold preBarrierLoop at h
    split at h
    · exact Except.noConfusion h
    · exact issue_owed_sub (ih h hj)
    · exact ih h hj

lemma preStep_owed_sub {k : Kernel} {level : Nat} {sched : List SchedItem}
    {ws : List Nat} {b : Bool} {st1 st2 : IBState}
    (h : (if b then Except.ok st1 else preBarrierLoop k level sched ws st1) =
      Except.ok st2)
    {j : Nat} (hj : j ∈ st2.owed) : j ∈ st1.owed := by
  split at h
  · injection h with h
    rwa [← h] at hj
  · exact preBarrierLoop_owed_sub h hj

lemma run_append_sound {sId tId : Nat} {st st0 : IBState} {iid : Nat}
    {newOwed : List Nat} {hb2 : Bool}
    (hOwed0 : OwedInv sId st0)
    (hPair0 : PairSep sId tId st0.result)
    (hsub0 : ∀ j, j ∈ st0.owed → j ∈ st.owed)
    (hends : iid = tId → sId ∈ st.owed →
      endsWithBarrier st0.result = true)
    (hnewOwed : iid = sId → sId ∈ newOwed)
    (hkeep : ∀ j, j ∈ st0.owed → j ∈ newOwed) :
    OwedInv sId ⟨st0.result ++ [SchedItem.RunInstruction iid], newOwed,
      hb2⟩ ∧
    PairSep sId tId (st0.result ++ [SchedItem.RunInstruction iid]) := by
  constructor
  · intro p hp
    have hp2 : (st0.result ++ [SchedItem.RunInstruction iid])[p]? =
      some (SchedItem.RunInstruction sId) := hp
    rcases getElem?_append_cases _ _ _ _ hp2 with ⟨hlt, hA⟩ | ⟨j, hj, hB⟩
    · rcases hOwed0 p hA with hmem | hbar
      · exact Or.inl (hkeep _ hmem)
      · obtain ⟨m, c, hm, hb⟩ := hbar
        exact Or.inr ⟨m, c, hm, getElem?_append_of_some _ hb⟩
    · cases j with
      | zero =>
        rw [List.getElem?_cons_zero] at hB
        have hii : iid = sId := by
          have := Option.some.inj hB
          injection this
        exact Or.inl (hnewOwed hii)
      | succ j2 =>
        rw [List.getElem?_cons_succ] at hB
        simp at hB
  · intro p q hpq hp hq
    have hp2 : (st0.result ++ [SchedItem.RunInstruction iid])[p]? =
      some (SchedItem.RunInstruction sId) := hp
    have hq2 : (st0.result ++ [SchedItem.RunInstruction iid])[q]? =
      some (SchedItem.RunInstruction tId) := hq
    rcases getElem?_append_cases _ _ _ _ hq2 with ⟨hltq, hAq⟩ | ⟨j, hj, hB⟩
    · have hltp : p < st0.result.length := by omega
      have hAp : st0.result[p]? = some (SchedItem.RunInstruction sId) := by
        rwa [List.getElem?_append_left hltp] at hp2
      obtain ⟨m, c, h1, h2, hb⟩ := hPair0 p q hpq hAp hAq
      exact ⟨m, c, h1, h2, getElem?_append_of_some _ hb⟩
    · cases j with
      | succ j2 =>
        rw [List.getElem?_cons_succ] at hB
        simp at hB
      | zero =>
        rw [List.getElem?_cons_zero] at hB
        have hiid : iid = tId := by
          have := Option.some.inj hB
          injection this
        have hltp : p < st0.result.length := by omega
        have hAp : st0.result[p]? = some (SchedItem.RunInstruction sId) := by
          rwa [List.getElem?_append_left hltp] at hp2
        rcases hOwed0 p hAp with hmem | hbar
        · have hend := hends hiid (hsub0 _ hmem)
          obtain ⟨m, c, hm, hb⟩ := ends_barrier_after hend hAp
          have hmlt : m < st0.result.length := getElem?_some_lt hb
          exact ⟨m, c, hm, by omega, getElem?_append_of_some _ hb⟩
        · obtain ⟨m, c, hm, hb⟩ := hbar
          have hmlt : m < st0.result.length := getElem?_some_lt hb
          exact ⟨m, c, hm, by omega, getElem?_append_of_some _ hb⟩

lemma enter_append_sound {sId tId : Nat} {st st2 sub : IBState}
    {iname n : Nat} {newOwed : List Nat} {hb2 : Bool}
    (hOwed2 : OwedInv sId st2)
    (hPair2 : PairSep sId tId st2.result)
    (hOwedSub : OwedInv sId sub)
    (hPairSub : PairSep sId tId sub.result)
    (hkeep2 : ∀ j, j ∈ st2.owed → j ∈ newOwed)
    (hkeepSub : ∀ j, j ∈ sub.owed → j ∈ newOwed)
    (hsub0 : ∀ j, j ∈ st2.owed → j ∈ st.owed)
    (hcross : sId ∈ st.owed →
      endsWithBarrier st2.result = true ∨
      (∀ iq : Nat, sub.result[iq]? = some (SchedItem.RunInstruction tId) →
        ∃ (m : Nat) (c : Option (Bool × Nat)), m < iq ∧
          sub.result[m]? = some (SchedItem.Barrier c))) :
    OwedInv sId ⟨st2.result ++ [SchedItem.EnterLoop iname] ++ sub.result ++
      [SchedItem.LeaveLoop n], newOwed, hb2⟩ ∧
    PairSep sId tId (st2.result ++ [SchedItem.EnterLoop iname] ++
      sub.result ++ [SchedItem.LeaveLoop n]) := by
  constructor
  · intro p hp
    have hp2 : (st2.result ++ [SchedItem.EnterLoop iname] ++ sub.result ++
        [SchedItem.LeaveLoop n])[p]? =
        some (SchedItem.RunInstruction sId) := hp
    rcases block_pos_cases hp2 with ⟨hlt, hA⟩ | ⟨_, hx⟩ |
      ⟨i, hilt, hpi, hsubi⟩ | ⟨_, hx⟩
    · rcases hOwed2 p hA with hmem | hbar
      · exact Or.inl (hkeep2 _ hmem)
      · obtain ⟨m, c, hm, hb⟩ := hbar
        exact Or.inr ⟨m, c, hm, block_get_A hb⟩
    · exact SchedItem.noConfusion hx
    · rcases hOwedSub i hsubi with hmem | hbar
      · exact Or.inl (hkeepSub _ hmem)
      · obtain ⟨m, c, hm, hb⟩ := hbar
        refine Or.inr ⟨st2.result.length + 1 + m, c, by omega,
          block_get_sub hb⟩
    · exact SchedItem.noConfusion hx
  · intro p q hpq hp hq
    have hp2 : (st2.result ++ [SchedItem.EnterLoop iname] ++ sub.result ++
        [SchedItem.LeaveLoop n])[p]? =
        some (SchedItem.RunInstruction sId) := hp
    have hq2 : (st2.result ++ [SchedItem.EnterLoop iname] ++ sub.result ++
        [SchedItem.LeaveLoop n])[q]? =
        some (SchedItem.RunInstruction tId) := hq
    rcases block_pos_cases hq2 with ⟨hltq, hAq⟩ | ⟨_, hx⟩ |
      ⟨iq, hiqlt, hqi, hsubq⟩ | ⟨_, hx⟩
    · rcases block_pos_cases hp2 with ⟨hltp, hAp⟩ | ⟨hpl, hx⟩ |
        ⟨ip, hiplt, hpi, hsubp⟩ | ⟨hpl, hx⟩
      · obtain ⟨m, c, h1, h2, hb⟩ := hPair2 p q hpq hAp hAq
        exact ⟨m, c, h1, h2, block_get_A hb⟩
      · omega
      · omega
      · omega
    · exact SchedItem.noConfusion hx
    · rcases block_pos_cases hp2 with ⟨hltp, hAp⟩ | ⟨hpl, hx⟩ |
        ⟨ip, hiplt, hpi, hsubp⟩ | ⟨hpl, hx⟩
      · rcases hOwed2 p hAp with hmem | hbar
        · rcases hcross (hsub0 _ hmem) with hend | hscan
          · obtain ⟨m, c, hm, hb⟩ := ends_barrier_after hend hAp
            have hmlt : m < st2.result.length := getElem?_some_lt hb
            exact ⟨m, c, hm, by omega, block_get_A hb⟩
          · obtain ⟨m, c, hm, hb⟩ := hscan iq hsubq
            refine ⟨st2.result.length + 1 + m, c, by omega, by omega,
              block_get_sub hb⟩
        · obtain ⟨m, c, hm, hb⟩ := hbar
          have hmlt : m < st2.result.length := getElem?_some_lt hb
          exact ⟨m, c, hm, by omega, block_get_A hb⟩
      · exact SchedItem.noConfusion hx
      · have hiplq : ip < iq := by omega
        obtain ⟨m, c, h1, h2, hb⟩ := hPairSub ip iq hiplq hsubp hsubq
        refine ⟨st2.result.length + 1 + m, c, by omega, by omega,
          block_get_sub hb⟩
      · omega
    · exact SchedItem.noConfusion hx

lemma OwedInv_init (sId : Nat) : OwedInv sId ⟨[], [], false⟩ := by
  intro p hp
  rw [runsAt] at hp
  simp at hp

lemma PairSep_nil (sId tId : Nat) : PairSep sId tId [] := by
  intro p q _ hp _
  rw [runsAt] at hp
  simp at hp

lemma ibBody_sound {k : Kernel} {sId tId : Nat} {S T : Instruction}
    (hS : idToInsn k sId = S) (hT : idToInsn k tId = T)
    (hsid : S.id = sId) (htid : T.id = tId) (hne : sId ≠ tId)
    (hdep : sId ∈ T.insn_deps) (hw : S.assignee ∈ k.local_vars)
    (htouch : S.assignee ∈ T.read_vars ∨ T.assignee = S.assignee ∨
      (T.assignee ∈ k.local_vars ∧ T.assignee ∈ S.read_vars))
    (recur : List SchedItem → Nat → List SchedItem → IBState →
      Except Unit IBState)
    (IH : ∀ sched lvl items st st', recur sched lvl items st = Except.ok st' →
      OwedInv sId st → PairSep sId tId st.result →
      OwedInv sId st' ∧ PairSep sId tId st'.result) :
    ∀ sched lvl items st st',
      ibBody k recur sched lvl items st = Except.ok st' →
      OwedInv sId st → PairSep sId tId st.result →
      OwedInv sId st' ∧ PairSep sId tId st'.result := by
  have hST : S ≠ T := fun hc => hne (by rw [← hsid, hc, htid])
  have hpair := @gbnd_pair_some k sId S T hST hsid hdep hw htouch
  have hcw : k.local_vars.contains S.assignee = true := by
    simpa [List.elem_iff] using hw
  intro sched lvl items st st' h hOwed hPair
  cases items with
  | nil =>
    simp only [ibBody] at h
    injection h with h
    rw [← h]
    exact ⟨hOwed, hPair⟩
  | cons item rest =>
    cases item with
    | EnterLoop iname =>
      simp only [ibBody] at h
      split at h
      · exact Except.noConfusion h
      · rename_i interior leaveItem rest2 hg
        split at h
        · exact Except.noConfusion h
        · rename_i sub hsub
          split at h
          · exact Except.noConfusion h
          · rename_i odep hod
            split at h
            · exact Except.noConfusion h
            · rename_i st2 hst2
              obtain ⟨n, hlv⟩ := gatherBody_leave hg
              subst hlv
              obtain ⟨hOwedSub, hPairSub⟩ :=
                IH _ _ _ _ _ hsub (OwedInv_init sId) (PairSep_nil sId tId)
              cases odep with
              | some dep =>
                have hstep := @enter_append_sound sId tId st st2 sub
                  iname n (unionOwed st2.owed sub.owed) st2.had_barrier
                  (preStep_OwedInv hst2 (issue_OwedInv hOwed))
                  (PairSep_ext (BarrierExt_trans
                    (issue_barrier_ext lvl false (some dep) st)
                    (preStep_ext hst2)) hPair)
                  hOwedSub hPairSub
                  (fun j hj => mem_unionOwed_left hj)
                  (fun j hj => mem_unionOwed_right hj)
                  (fun j hj => issue_owed_sub (preStep_owed_sub hst2 hj))
                  (fun _ => Or.inl (preStep_preserves_ends hst2
                    (issue_false_some_ends lvl dep st)))
                exact IH _ _ _ _ _ h hstep.1 hstep.2
              | none =>
                have hstep := @enter_append_sound sId tId st st2 sub
                  iname n (unionOwed st2.owed sub.owed) st2.had_barrier
                  (preStep_OwedInv hst2 hOwed)
                  (PairSep_ext (preStep_ext hst2) hPair)
                  hOwedSub hPairSub
                  (fun j hj => mem_unionOwed_left hj)
                  (fun j hj => mem_unionOwed_right hj)
                  (fun j hj => preStep_owed_sub hst2 hj)
                  (fun hsw => Or.inr (fun iq hiq =>
                    gbdis_none_barrier_before hS hT hpair sub.result iq
                      (firstOwedDep_none hod sId hsw) hiq))
                exact IH _ _ _ _ _ h hstep.1 hstep.2
    | LeaveLoop n =>
      simp only [ibBody] at h
      exact Except.noConfusion h
    | RunInstruction iid =>
      simp only [ibBody] at h
      split at h
      · exact Except.noConfusion h
      · rename_i st1 hst1
        have hOwed1 : OwedInv sId st1 := depBarrierLoop_OwedInv hst1 hOwed
        have hPair1 : PairSep sId tId st1.result :=
          PairSep_ext (depBarrierLoop_ext hst1) hPair
        have hhit : iid = tId → sId ∈ st.owed →
            endsWithBarrier st1.result = true := by
          intro hiid hsw
          obtain ⟨d, hd⟩ := hpair
          refine @depBarrierLoop_hit_ends k lvl _ sId d ?_ _ _ _ ?_ hst1
          · rw [hiid, hT, hS]
            exact hd
          · rw [hiid, hT]
            exact List.mem_filter.mpr ⟨hdep, by simp [List.elem_iff, hsw]⟩
        split at h
        · rename_i hcond
          split at h
          · exact Except.noConfusion h
          · rename_i odep hod
            cases odep with
            | none =>
              have hstep := @run_append_sound sId tId st st1 iid
                (addOwed st1.owed iid) st1.had_barrier
                hOwed1 hPair1
                (fun j hj => depBarrierLoop_owed_sub hst1 hj)
                hhit
                (fun hii => (mem_addOwed st1.owed iid sId).mpr
                  (Or.inr hii.symm))
                (fun j hj => (mem_addOwed st1.owed iid j).mpr (Or.inl hj))
              exact IH _ _ _ _ _ h hstep.1 hstep.2
            | some dep =>
              have hstep := @run_append_sound sId tId st
                (issue_barrier lvl true (some dep) st1) iid
                (addOwed (issue_barrier lvl true (some dep) st1).owed iid)
                (issue_barrier lvl true (some dep) st1).had_barrier
                (issue_OwedInv hOwed1)
                (PairSep_ext (issue_barrier_ext lvl true (some dep) st1)
                  hPair1)
                (fun j hj => depBarrierLoop_owed_sub hst1
                  (issue_owed_sub hj))
                (fun hiid hsw => issue_preserves_ends _ _ _ _
                  (hhit hiid hsw))
                (fun hii => (mem_addOwed _ iid sId).mpr (Or.inr hii.symm))
                (fun j hj => (mem_addOwed _ iid j).mpr (Or.inl hj))
              exact IH _ _ _ _ _ h hstep.1 hstep.2
        · rename_i hcond
          have hstep := @run_append_sound sId tId st st1 iid
            st1.owed st1.had_barrier
            hOwed1 hPair1
            (fun j hj => depBarrierLoop_owed_sub hst1 hj)
            hhit
            (fun hii => by
              rw [hii, hS] at hcond
              exact absurd hcw hcond)
            (fun j hj => hj)
          exact IH _ _ _ _ _ h hstep.1 hstep.2
    | Barrier c =>
      simp only [ibBody] at h
      exact Except.noConfusion h

lemma ibGo_sound {k : Kernel} {sId tId : Nat} {S T : Instruction}
    (hS : idToInsn k sId = S) (hT : idToInsn k tId = T)
    (hsid : S.id = sId) (htid : T.id = tId) (hne : sId ≠ tId)
    (hdep : sId ∈ T.insn_deps) (hw : S.assignee ∈ k.local_vars)
    (htouch : S.assignee ∈ T.read_vars ∨ T.assignee = S.assignee ∨
      (T.assignee ∈ k.local_vars ∧ T.assignee ∈ S.read_vars)) :
    ∀ (fuel : Nat) (sched : List SchedItem) (lvl : Nat)
      (items : List SchedItem) (st st' : IBState),
      ibGo k fuel sched lvl items st = Except.ok st' →
      OwedInv sId st → PairSep sId tId st.result →
      OwedInv sId st' ∧ PairSep sId tId st'.result := by
  intro fuel
  induction fuel with
  | zero =>
    intro sched lvl items st st' h _ _
    simp only [ibGo] at h
    exact Except.noConfusion h
  | succ n IHf =>
    intro sched lvl items st st' h hOwed hPair
    simp only [ibGo] at h
    exact ibBody_sound hS hT hsid htid hne hdep hw htouch _
      (fun a b c d e hh => IHf a b c d e hh) sched lvl items st st' h
      hOwed hPair

/-- C1 (amended): barrier soundness for shared-storage *writer* sources.
If instruction `sId` is a declared dependency of instruction `tId`, the
source `sId` writes some locally-shared variable, the pair has a
shared-storage hazard (the target reads the source's written variable,
writes that same variable, or writes a locally-shared variable that the
source reads), and barrier insertion succeeds on the schedule, then some
`Barrier` lies strictly between `sId`'s `RunInstruction` and `tId`'s
`RunInstruction` in the returned schedule. -/
theorem C1_barrier_soundness (k : Kernel) (sched res : List SchedItem)
    (w : List Nat) (sId tId : Nat) (S T : Instruction) (p q : Nat)
    (hS : k.instructions.find? (fun i => i.id == sId) = some S)
    (hT : k.instructions.find? (fun i => i.id == tId) = some T)
    (hne : sId ≠ tId)
    (hdep : sId ∈ T.insn_deps)
    (hw : S.assignee ∈ k.local_vars)
    (htouch : S.assignee ∈ T.read_vars ∨ T.assignee = S.assignee ∨
      (T.assignee ∈ k.local_vars ∧ T.assignee ∈ S.read_vars))
    (hok : insert_barriers k sched 0 = Except.ok (res, w))
    (hpq : p < q)
    (hp : res[p]? = some (SchedItem.RunInstruction sId))
    (hq : res[q]? = some (SchedItem.RunInstruction tId)) :
    ∃ (m : Nat) (c : Option (Bool × Nat)), p < m ∧ m < q ∧
      res[m]? = some (SchedItem.Barrier c) := by
  obtain ⟨hS', hsid⟩ := find?_id_facts hS
  obtain ⟨hT', htid⟩ := find?_id_facts hT
  unfold insert_barriers at hok
  split at hok
  · exact Except.noConfusion hok
  · rename_i stf heq
    injection hok with hok
    have h2 := congrArg Prod.fst hok
    simp only at h2
    have hsound := ibGo_sound hS' hT' hsid htid hne hdep hw htouch
      _ _ _ _ _ _ heq (OwedInv_init sId) (PairSep_nil sId tId)
    have hbet := hsound.2 p q hpq
      (by rw [runsAt, h2]; exact hp) (by rw [runsAt, h2]; exact hq)
    obtain ⟨m, c, h1, hm2, hb⟩ := hbet
    exact ⟨m, c, h1, hm2, by rwa [h2] at hb⟩

/-- C1 counterexample: for the write-after-read pair of `KscWAR` —
source 0 only *reads* locally-shared variable 9 and target 1 writes it,
with the dependency declared — barrier insertion succeeds yet inserts no
barrier between the two instructions, refuting the claim as stated
(which requires only that both touch the shared variable with at least
one write). -/
theorem C1_counterexample :
    insert_barriers KscWAR
      [SchedItem.RunInstruction 0, SchedItem.RunInstruction 1] 0 =
      Except.ok ([SchedItem.RunInstruction 0, SchedItem.RunInstruction 1],
        [1]) ∧
    (0 : Nat) ∈ (idToInsn KscWAR 1).insn_deps ∧
    (9 : Nat) ∈ (idToInsn KscWAR 0).read_vars ∧
    (idToInsn KscWAR 1).assignee = 9 ∧ (9 : Nat) ∈ KscWAR.local_vars ∧
    ¬ barrierBetween [SchedItem.RunInstruction 0,
      SchedItem.RunInstruction 1] 0 1 := by
  refine ⟨by decide, by decide, by decide, by decide, by decide, ?_⟩
  rintro ⟨m, c, h1, h2, hb⟩
  omega

/-- Witness for the amended C1 at the write-after-read kernel whose
source is itself a local writer (of a *different* shared variable): the
inserted dependency barrier separates reader-writer 0 from writer 1. -/
theorem C1_barrier_soundness_witness :
    ∃ (m : Nat) (c : Option (Bool × Nat)), 0 < m ∧ m < 2 ∧
      ([SchedItem.RunInstruction 0, SchedItem.Barrier (some (false, 9)),
        SchedItem.RunInstruction 1])[m]? = some (SchedItem.Barrier c) :=
  C1_barrier_soundness KscWARW
    [SchedItem.RunInstruction 0, SchedItem.RunInstruction 1]
    [SchedItem.RunInstruction 0, SchedItem.Barrier (some (false, 9)),
      SchedItem.RunInstruction 1] [1] 0 1 ⟨0, [], [], 8, [9], []⟩
    ⟨1, [0], [], 9, [], []⟩ 0 2 (by decide) (by decide) (by decide)
    (by decide) (by decide) (Or.inr (Or.inr ⟨by decide, by decide⟩))
    (by decide) (by decide) (by decide) (by decide)
